import Mathlib

/- Rational arithmetic is `@[irreducible]` in the library; re-enabling
reduction lets concrete runs of the embedded code evaluate inside `decide`,
`rfl` and `simp` proofs. -/
attribute [local semireducible] Rat.add Rat.mul Rat.sub Rat.inv Rat.ofScientific

/-!
Verification development for the credit-assessment repository's core logic:
the fallback scoring / sanitization engine (server/services/creditAnalyzer.js,
given here as src/unnamed/part_000), the fact combiner and document
processing loop (server/services/documentProcessor.js, src/unnamed/part_001),
and the AI-response JSON recovery (server/services/ollamaClient.js).

The JavaScript source is shallowly embedded:
* JavaScript values are modelled by `JSVal`; the IEEE double `NaN` is
  modelled as `JSVal.num none` and finite numbers as `JSVal.num (some q)`
  with `q : ℚ` (float rounding is not modelled; all numbers exercised by the
  source's arithmetic stay well inside exactly-representable ranges).
* Property access on an object is association-list lookup (`jsGet`); a missing
  property is `JSVal.undef`, mirroring JavaScript.
* `x || y` is `jsOr` with JavaScript truthiness (`jsTruthy`).
* Asynchronous calls to the external Ollama models are oracles: a document's
  extraction outcome is an `Except String (List JSObj)` carried by the
  modelled input, mirroring a call that either returns the per-image fact
  objects or throws.
* String processing is done on `List Char` (`String.data`) so that every
  definition evaluates inside the kernel.
-/

/-- A JavaScript runtime value, as far as the modelled code distinguishes
them. `num none` is `NaN`; `num (some q)` a finite number. -/
inductive JSVal where
  | undef
  | null
  | bool (b : Bool)
  | num (n : Option ℚ)
  | str (s : String)
  | arr (xs : List JSVal)
  | obj (fields : List (String × JSVal))

/-- A JavaScript object: an ordered association list of own properties, in
insertion order (as JavaScript enumerates string keys). -/
abbrev JSObj := List (String × JSVal)

mutual

/-- Structural equality test on modelled JS values.  Used to model
`SameValueZero` (the equality of `new Set`): faithful for the primitive
values (strings, numbers, booleans) that actually reach the deduplication
sites in the source; for objects JavaScript compares references, which a
pure model cannot, so structural equality stands in. -/
def JSVal.beq : JSVal → JSVal → Bool
  | .undef, .undef => true
  | .null, .null => true
  | .bool a, .bool b => a == b
  | .num a, .num b => a == b
  | .str a, .str b => a == b
  | .arr xs, .arr ys => JSVal.beqList xs ys
  | .obj fs, .obj gs => JSVal.beqFields fs gs
  | _, _ => false

/-- Elementwise `JSVal.beq` on lists. -/
def JSVal.beqList : List JSVal → List JSVal → Bool
  | [], [] => true
  | x :: xs, y :: ys => JSVal.beq x y && JSVal.beqList xs ys
  | _, _ => false

/-- Pairwise `JSVal.beq` on property lists. -/
def JSVal.beqFields : List (String × JSVal) → List (String × JSVal) → Bool
  | [], [] => true
  | (k, v) :: fs, (k2, v2) :: gs => k == k2 && JSVal.beq v v2 && JSVal.beqFields fs gs
  | _, _ => false

end

/-- JavaScript truthiness: `undefined`, `null`, `false`, `0`, `NaN` and the
empty string are falsy; every other value (including empty arrays and empty
objects) is truthy. -/
def jsTruthy : JSVal → Bool
  | .undef => false
  | .null => false
  | .bool b => b
  | .num none => false
  | .num (some q) => q ≠ 0
  | .str s => s ≠ ""
  | .arr _ => true
  | .obj _ => true

/-- `x || y`. -/
def jsOr (x y : JSVal) : JSVal := if jsTruthy x then x else y

/-- Property read `v[k]`.  On an object: lookup (last binding wins, as a
JavaScript object keeps one value per key and our builders may in principle
carry duplicates from parsed JSON).  On a primitive: `undefined`.  The source
never reads a property of `null`/`undefined` on a modelled path (JavaScript
would throw), so those also return `undefined` here. -/
def jsGet (v : JSVal) (k : String) : JSVal :=
  match v with
  | .obj fs => (fs.foldl (fun acc p => if p.1 = k then some p.2 else acc) none).getD .undef
  | _ => (.undef)

/-- Insert-or-overwrite one property, preserving the position of an existing
key and appending a new one — JavaScript assignment order semantics. -/
def jsSet (fs : JSObj) (k : String) (v : JSVal) : JSObj :=
  if fs.any (fun p => p.1 = k) then
    fs.map (fun p => if p.1 = k then (k, v) else p)
  else
    fs ++ [(k, v)]

/-- `Object.assign(target, source)`: assign every property of `source` onto
`target` in order. -/
def jsAssign (target source : JSObj) : JSObj :=
  source.foldl (fun acc p => jsSet acc p.1 p.2) target

/-- JavaScript whitespace (the ASCII part of `\s`, which is all the source's
strings contain). -/
def isWsChar (c : Char) : Bool :=
  c = ' ' || c = '\t' || c = '\n' || c = '\r' || c = '\x0b' || c = '\x0c'

/-- A `\w` word character. -/
def isWordChar (c : Char) : Bool :=
  c.isAlpha || c.isDigit || c = '_'

/-- `\w` or `\s`. -/
def isWordOrWs (c : Char) : Bool := isWordChar c || isWsChar c

/-- Drop trailing characters satisfying `p`. -/
def dropTrailing (p : Char → Bool) (l : List Char) : List Char :=
  (l.reverse.dropWhile p).reverse

/-- `String.prototype.trim` on the character list. -/
def trimChars (l : List Char) : List Char :=
  dropTrailing isWsChar (l.dropWhile isWsChar)

/-- `s.trim()` for strings. -/
def jsTrim (s : String) : String := ⟨trimChars s.data⟩

/-- `Math.round`: round half toward positive infinity. -/
def jsRound (q : ℚ) : ℤ := ⌊q + 1 / 2⌋

/-- `Math.min(a, x)` with a finite first argument; `NaN` is absorbing. -/
def jsMinQ (a : ℚ) (x : Option ℚ) : Option ℚ :=
  match x with
  | none => none
  | some q => some (min a q)

/-- `Math.max(a, x)` with a finite first argument; `NaN` is absorbing. -/
def jsMaxQ (a : ℚ) (x : Option ℚ) : Option ℚ :=
  match x with
  | none => none
  | some q => some (max a q)

/-- Parse the fractional digits of a decimal literal into (value scaled
weight, well-formedness is handled by the caller). -/
def digitsToNat (l : List Char) : ℕ :=
  l.foldl (fun acc c => acc * 10 + (c.toNat - 48)) 0

/-- ToNumber on a trimmed string body: an optionally signed decimal literal
(integer part, optional fraction, optional exponent).  Everything else is
`NaN` (`none`).  JavaScript additionally accepts hex/binary/`Infinity`
forms, which never arise in the modelled data; they land in `NaN` here. -/
def parseDecimal (l : List Char) : Option ℚ :=
  let core : List Char → Option ℚ := fun body =>
    let (intPart, rest1) := body.span Char.isDigit
    let (fracPart, rest2) :=
      match rest1 with
      | '.' :: t => let (f, r) := t.span Char.isDigit; (f, r)
      | _ => ([], rest1)
    let expParse : List Char → Option ℤ := fun r =>
      match r with
      | [] => some 0
      | 'e' :: t | 'E' :: t =>
        let (sgn, t2) : ℤ × List Char :=
          match t with
          | '+' :: u => (1, u)
          | '-' :: u => (-1, u)
          | _ => (1, t)
        let (ds, r2) := t2.span Char.isDigit
        if ds = [] ∨ r2 ≠ [] then none else some (sgn * digitsToNat ds)
      | _ => none
    if intPart = [] ∧ fracPart = [] then none
    else
      match expParse rest2 with
      | none => none
      | some e =>
        let base : ℚ :=
          (digitsToNat intPart : ℚ) + (digitsToNat fracPart : ℚ) / (10 : ℚ) ^ fracPart.length
        some (base * (10 : ℚ) ^ e)
  match l with
  | [] => some 0
  | '-' :: t => (core t).map (fun q => -q)
  | '+' :: t => core t
  | _ => core l

/-- Decimal rendering of a natural number. -/
def natDigits (n : ℕ) : List Char :=
  (Nat.toDigits 10 n)

/-- Rendering of a nonnegative rational: exact for integers; a non-integral
rational (never produced on a modelled path that is later re-read) renders
its integer floor followed by a marker. -/
def qToCharsAux (q : ℚ) : List Char :=
  if q.den = 1 then natDigits q.num.toNat
  else natDigits (⌊q⌋).toNat ++ ['.', '…']

/-- JavaScript `String(x)` for a finite number, as far as the source needs
it. -/
def qToChars (q : ℚ) : List Char :=
  if q < 0 then '-' :: qToCharsAux (-q) else qToCharsAux q

mutual

/-- JavaScript `String(v)` / `.toString()`. -/
def jsToChars : JSVal → List Char
  | .undef => "undefined".data
  | .null => "null".data
  | .bool true => "true".data
  | .bool false => "false".data
  | .num none => "NaN".data
  | .num (some q) => qToChars q
  | .str s => s.data
  | .arr xs => jsToCharsList xs
  | .obj _ => "[object Object]".data

/-- `Array.prototype.toString`: elements joined with commas, with
`null`/`undefined` elements rendering empty. -/
def jsToCharsList : List JSVal → List Char
  | [] => []
  | [x] =>
    match x with
    | .undef => []
    | .null => []
    | _ => jsToChars x
  | x :: xs =>
    (match x with
     | .undef => []
     | .null => []
     | _ => jsToChars x) ++ ',' :: jsToCharsList xs

end

/-- JavaScript `ToNumber` coercion. -/
def jsToNumber : JSVal → Option ℚ
  | .undef => none
  | .null => some 0
  | .bool true => some 1
  | .bool false => some 0
  | .num n => n
  | .str s => parseDecimal (trimChars s.data)
  | .arr xs => parseDecimal (trimChars (jsToCharsList xs))
  | .obj _ => none

/-- JavaScript `String(v)` as a `String`. -/
def jsToString (v : JSVal) : String := ⟨jsToChars v⟩

/-!
## Recommendation Sanitizer — src/unnamed/part_000, `sanitizeCreditRecommendation`

The sanitizer's output object literal is modelled by the structure
`CreditRec`; `CreditRec.toObj` rebuilds the JavaScript object with its
literal key order, which is what a caller feeding the result back into the
sanitizer would pass.  The `generatedAt` default `new Date().toISOString()`
is nondeterministic, so the sanitizer takes the current timestamp as the
explicit argument `now`.
-/

/-- `validRatings` of `validateRating`. -/
def validRatings : List String := ["Excellent", "Good", "Fair", "Poor", "Very Poor"]

/-- `validRiskLevels` of `validateRiskLevel`. -/
def validRiskLevels : List String := ["Low", "Medium", "High"]

/-- `validateRating`: the rating when it is one of the five allowed strings,
else `null`. -/
def validateRating (v : JSVal) : Option String :=
  match v with
  | .str s => if s ∈ validRatings then some s else none
  | _ => none

/-- `validateRiskLevel`. -/
def validateRiskLevel (v : JSVal) : Option String :=
  match v with
  | .str s => if s ∈ validRiskLevels then some s else none
  | _ => none

/-- The filter-and-map step of `sanitizeStringArray`: keep an item only if
it is a string whose trim is nonempty (`typeof item === 'string' &&
item.trim().length > 0`), mapped to its trim. -/
def keepNonblank : JSVal → Option String
  | .str s => if (trimChars s.data).length > 0 then some (jsTrim s) else none
  | _ => none

/-- `sanitizeStringArray(arr, fallback)`: non-arrays become `[fallback]`;
arrays are filtered to their nonblank strings, trimmed, capped at 6, with
`[fallback]` when nothing survives. -/
def sanitizeStringArray (v : JSVal) (fallback : String) : List String :=
  match v with
  | .arr xs =>
    let sanitized := (xs.filterMap keepNonblank).take 6
    if sanitized.length > 0 then sanitized else [fallback]
  | _ => [fallback]

/-- `(x || '').toString().trim() || default` — the shared shape of the
`recommendation` and `reasoning` fields. -/
def sanitizeText (v : JSVal) (dflt : String) : String :=
  let t := jsTrim (jsToString (jsOr v (.str "")))
  if t = "" then dflt else t

/-- The sanitized recommendation record, one field per key of the object
literal returned by `sanitizeCreditRecommendation`.  `score`,
`maxCreditLimit` and `interestRate` are numbers (`none` = `NaN`);
`analysisModel` and `generatedAt` pass raw values through, so they stay
`JSVal`. -/
@[ext]
structure CreditRec where
  score : Option ℚ
  rating : String
  riskLevel : String
  recommendation : String
  keyFactors : List String
  improvementSuggestions : List String
  maxCreditLimit : Option ℚ
  interestRate : Option ℚ
  reasoning : String
  analysisModel : JSVal
  generatedAt : JSVal

/-- `sanitizeCreditRecommendation(recommendation)`; `now` is the timestamp
`new Date().toISOString()` would produce. -/
def sanitizeCreditRecommendation (recommendation : JSObj) (now : String) : CreditRec :=
  let rec' := JSVal.obj recommendation
  { score := jsMaxQ 300 (jsMinQ 850 (jsToNumber (jsOr (jsGet rec' "creditScore") (.num (some 650)))))
    rating := (validateRating (jsGet rec' "rating")).getD "Fair"
    riskLevel := (validateRiskLevel (jsGet rec' "riskLevel")).getD "Medium"
    recommendation := sanitizeText (jsGet rec' "recommendation") "No recommendation available"
    keyFactors := sanitizeStringArray (jsGet rec' "keyFactors") "Positive factor identified"
    improvementSuggestions :=
      sanitizeStringArray (jsGet rec' "improvementSuggestions") "Consider improvement"
    maxCreditLimit := jsMaxQ 0 (jsToNumber (jsOr (jsGet rec' "maxCreditLimit") (.num (some 10000))))
    interestRate :=
      jsMaxQ 0 (jsMinQ 50 (jsToNumber (jsOr (jsGet rec' "interestRate") (.num (some 15)))))
    reasoning := sanitizeText (jsGet rec' "reasoning") "Analysis completed"
    analysisModel := jsOr (jsGet rec' "analysisModel") (.str "deepseek-r1:8b")
    generatedAt := jsOr (jsGet rec' "generatedAt") (.str now) }

/-- The object literal the sanitizer returns, with its keys in source
order — the raw value a second sanitization pass would receive. -/
def CreditRec.toObj (r : CreditRec) : JSObj :=
  [ ("score", .num r.score)
  , ("rating", .str r.rating)
  , ("riskLevel", .str r.riskLevel)
  , ("recommendation", .str r.recommendation)
  , ("keyFactors", .arr (r.keyFactors.map .str))
  , ("improvementSuggestions", .arr (r.improvementSuggestions.map .str))
  , ("maxCreditLimit", .num r.maxCreditLimit)
  , ("interestRate", .num r.interestRate)
  , ("reasoning", .str r.reasoning)
  , ("analysisModel", r.analysisModel)
  , ("generatedAt", r.generatedAt) ]

/-!
## Processing results and the Fallback Scorer — src/unnamed/part_000

A `ProcResult` is one element of the `processedResults` array produced by
`processDocuments` (src/unnamed/part_001) and consumed by `analyzeCredit`:
a per-document wrapper of the combined extracted data plus bookkeeping.
-/

/-- One per-document processing result. `error` is the optional `error`
property (`none` when the property is absent). -/
structure ProcResult where
  fileId : String
  fileName : String
  error : Option String
  extractedData : JSObj
  imageCount : ℕ
  processingTime : ℚ

/-- Numeric reading of a value reached by a `||`-chain whose operands are
numbers on every modelled path (`+` on anything else would trigger
JavaScript string coercion; the theorems' typing hypotheses keep those
inputs out). -/
def numOf : JSVal → ℚ
  | .num (some q) => q
  | _ => 0

/-- `data.a || data.b || 0` followed by numeric use. -/
def orNumOr (a b : JSVal) : ℚ :=
  numOf (jsOr a (jsOr b (.num (some 0))))

/-- `r.extractedData.riskFactors?.length || 0`: length of an array (or of a
string — `.length` also exists there); anything else reads `undefined`,
which `|| 0` turns into `0`. -/
def rfLength (v : JSVal) : ℕ :=
  match v with
  | .arr xs => xs.length
  | .str s => s.data.length
  | _ => 0

/-- The `financialMetrics` values of the records whose `financialMetrics`
property is truthy (note: an empty object is truthy). -/
def financialData (results : List ProcResult) : List JSVal :=
  (results.filter fun r => jsTruthy (jsGet (.obj r.extractedData) "financialMetrics")).map
    fun r => jsGet (.obj r.extractedData) "financialMetrics"

/-- `avgIncome` of `generateFallbackRecommendation` over the filtered
metric objects. -/
def avgIncome (fd : List JSVal) : ℚ :=
  (fd.map fun d => orNumOr (jsGet d "monthlyIncome") (jsGet d "annualRevenue")).sum / fd.length

/-- `avgAssets` of `generateFallbackRecommendation`. -/
def avgAssets (fd : List JSVal) : ℚ :=
  (fd.map fun d => orNumOr (jsGet d "totalAssets") (jsGet d "accountBalance")).sum / fd.length

/-- Total count of risk factors: `reduce((sum, r) => sum +
(r.extractedData.riskFactors?.length || 0), 0)`. -/
def totalRiskFactors (results : List ProcResult) : ℕ :=
  (results.map fun r => rfLength (jsGet (.obj r.extractedData) "riskFactors")).sum

/-- `getScoreRating(score)`. -/
def getScoreRating (score : ℤ) : String :=
  if score ≥ 800 then "Excellent"
  else if score ≥ 740 then "Good"
  else if score ≥ 670 then "Fair"
  else if score ≥ 580 then "Poor"
  else "Very Poor"

/-- `calculateCreditLimit(score)`. -/
def calculateCreditLimit (score : ℤ) : ℤ :=
  if score ≥ 800 then 50000
  else if score ≥ 740 then 25000
  else if score ≥ 670 then 15000
  else if score ≥ 580 then 8000
  else 3000

/-- `calculateInterestRate(score)`. -/
def calculateInterestRate (score : ℤ) : ℚ :=
  if score ≥ 800 then 13 / 2
  else if score ≥ 740 then 46 / 5
  else if score ≥ 670 then 27 / 2
  else if score ≥ 580 then 189 / 10
  else 249 / 10

/-- `s.toLowerCase()` (ASCII). -/
def lowerChars (l : List Char) : List Char := l.map Char.toLower

/-- Contiguous-substring test, for `String.prototype.includes`. -/
def containsSub (l pat : List Char) : Bool :=
  match l with
  | [] => pat.isPrefixOf ([] : List Char)
  | _ :: t => pat.isPrefixOf l || containsSub t pat

/-- `results.some(r => r.extractedData.documentType === t)` (and the
equivalent `docTypes.includes(t)`). -/
def hasDocType (results : List ProcResult) (t : String) : Bool :=
  results.any fun r => JSVal.beq (jsGet (.obj r.extractedData) "documentType") (.str t)

/-- `generateFallbackRecommendationText(score, rating, results)`. -/
def generateFallbackRecommendationText
    (score : ℤ) (rating : String) (results : List ProcResult) : String :=
  let hasFinancialDocs := hasDocType results "financial"
  let hasBankDocs := hasDocType results "bank_statement"
  let hasLegalDocs := hasDocType results "legal"
  let base :=
    "Based on rule-based analysis of " ++ (⟨natDigits results.length⟩ : String) ++
    " document(s) extracted using qwen2.5vl:7b, the applicant shows a " ++
    (⟨lowerChars rating.data⟩ : String) ++ " credit profile with a score of " ++
    (⟨natDigits score.toNat⟩ : String) ++ ". "
  let base :=
    if hasFinancialDocs && hasBankDocs then
      base ++ "The comprehensive financial documentation provides strong evidence of financial stability and creditworthiness. "
    else if hasFinancialDocs || hasBankDocs then
      base ++ "The financial documentation provides adequate evidence of creditworthiness, though additional documentation could strengthen the application. "
    else base
  let base :=
    if hasLegalDocs then
      base ++ "Legal documentation appears to be in order with no significant compliance issues identified. "
    else base
  if score ≥ 740 then
    base ++ "This applicant is recommended for approval with favorable terms."
  else if score ≥ 670 then
    base ++ "This applicant is recommended for approval with standard terms and monitoring."
  else
    base ++ "This applicant may require additional scrutiny or enhanced terms to mitigate risk."

/-- `generateFallbackKeyFactors(results)`. -/
def generateFallbackKeyFactors (results : List ProcResult) : List String :=
  let factors :=
    (if hasDocType results "bank_statement" then
      ["Bank statement analysis completed with qwen2.5vl:7b"] else []) ++
    (if hasDocType results "financial" then
      ["Financial statement review conducted"] else []) ++
    (if hasDocType results "legal" then
      ["Legal documentation verified"] else []) ++
    [ "AI-powered document extraction using computer vision"
    , "Multi-document cross-validation performed"
    , "Automated risk assessment completed" ]
  factors.take 6

/-- `results.flatMap(r => r.extractedData.riskFactors || [])`: `flatMap`
flattens array results one level and keeps a non-array result as a single
element. -/
def flatRiskFactors (results : List ProcResult) : List JSVal :=
  results.flatMap fun r =>
    match jsOr (jsGet (.obj r.extractedData) "riskFactors") (.arr []) with
    | .arr xs => xs
    | v => [v]

/-- `riskFactors.some(rf => rf.toLowerCase().includes(kw))`.  A non-string
risk factor would make JavaScript throw on `toLowerCase`; such values never
occur on a modelled path and the test is simply false for them here. -/
def riskFactorMentions (rfs : List JSVal) (kw : String) : Bool :=
  rfs.any fun rf =>
    match rf with
    | .str s => containsSub (lowerChars s.data) kw.data
    | _ => false

/-- `generateFallbackImprovementSuggestions(results)`. -/
def generateFallbackImprovementSuggestions (results : List ProcResult) : List String :=
  let rfs := flatRiskFactors results
  let suggestions :=
    (if riskFactorMentions rfs "income" then
      ["Consider providing additional income documentation"] else []) ++
    (if riskFactorMentions rfs "debt" then
      ["Work on reducing outstanding debt obligations"] else []) ++
    (if riskFactorMentions rfs "balance" then
      ["Maintain higher account balances consistently"] else [])
  let suggestions :=
    if suggestions.length = 0 then
      [ "Continue maintaining good financial practices"
      , "Consider diversifying income sources"
      , "Provide additional supporting documentation" ]
    else suggestions
  suggestions.take 4

/-- The object literal returned by `generateFallbackRecommendation`. -/
structure FallbackRec where
  score : ℤ
  rating : String
  riskLevel : String
  recommendation : String
  keyFactors : List String
  improvementSuggestions : List String
  maxCreditLimit : ℤ
  interestRate : ℚ
  reasoning : String
  analysisModel : String

/-- `generateFallbackRecommendation(results)`, following the source's
mutation sequence: base 650, tiered financial adjustment, 15-point
deduction per risk factor, clamp to [300, 850], then the band lookups. -/
def generateFallbackRecommendation (results : List ProcResult) : FallbackRec :=
  let fd := financialData results
  let adjusted : ℤ × String :=
    if fd.length > 0 then
      if avgIncome fd > 30000 ∧ avgAssets fd > 75000 then (650 + 100, "Low")
      else if avgIncome fd > 15000 ∧ avgAssets fd > 25000 then (650 + 50, "Medium")
      else (650 - 50, "High")
    else (650, "Medium")
  let baseScore : ℤ := adjusted.1 - (totalRiskFactors results : ℤ) * 15
  let score : ℤ := max 300 (min 850 baseScore)
  let rating := getScoreRating score
  { score := score
    rating := rating
    riskLevel := adjusted.2
    recommendation := generateFallbackRecommendationText score rating results
    keyFactors := generateFallbackKeyFactors results
    improvementSuggestions := generateFallbackImprovementSuggestions results
    maxCreditLimit := calculateCreditLimit score
    interestRate := calculateInterestRate score
    reasoning := "Fallback rule-based analysis used due to AI model unavailability"
    analysisModel := "fallback-rules" }

/-- `r.error` truthiness: present and not the empty string. -/
def errTruthy : Option String → Bool
  | some s => s ≠ ""
  | none => false

/-- `calculateFallbackRisk(results)`.  For an empty input the source
computes `0/0 = NaN`; both `NaN < 1.5` and `NaN < 2.5` are false, so the
final `return 'High'` fires — the `0` branch spells that out. -/
def calculateFallbackRisk (results : List ProcResult) : String :=
  match results.length with
  | 0 => "High"
  | n + 1 =>
    let avg : ℚ := (totalRiskFactors results : ℚ) / (n + 1)
    if avg < 3 / 2 then "Low"
    else if avg < 5 / 2 then "Medium"
    else "High"

/-- `calculateFallbackConfidence(results)`: 75, plus 2 per document capped
at 10, minus 15 per errored document, clamped to [50, 95]. -/
def calculateFallbackConfidence (results : List ProcResult) : ℤ :=
  let confidence : ℤ := 75 + min ((results.length : ℤ) * 2) 10
  let errorCount := (results.filter fun r => errTruthy r.error).length
  let confidence := confidence - (errorCount : ℤ) * 15
  max 50 (min 95 confidence)

/-!
## Document summary — `analyzeCredit` (src/unnamed/part_000, lines 6-25)
-/

/-- The `confidence` entry of `extractedDataArray`:
`result.extractedData.confidence || 80`. -/
def confEntry (r : ProcResult) : JSVal :=
  jsOr (jsGet (.obj r.extractedData) "confidence") (.num (some 80))

/-- The summed confidence `reduce((sum, data) => sum + (data.confidence ||
80), 0)`.  The addends are numbers on every modelled path (`confEntry` is
already defaulted); a non-numeric truthy confidence would make JavaScript
concatenate strings instead, which the theorems' typing hypotheses
exclude. -/
def summaryConfSum (results : List ProcResult) : ℚ :=
  (results.map fun r => numOf (jsOr (confEntry r) (.num (some 80)))).sum

/-- First-occurrence deduplication, the order `[...new Set(xs)]` yields. -/
def dedupFirst (xs : List JSVal) : List JSVal :=
  xs.foldl (fun acc x => if acc.any (JSVal.beq x) then acc else acc ++ [x]) []

/-- `documentSummary.averageConfidence`: `Math.round(sum / length)`.  For an
empty input the source divides by zero, producing `NaN` (modelled as
`none`), which `Math.round` keeps as `NaN`; no exception is thrown but no
integer is produced either. -/
def averageConfidence (results : List ProcResult) : Option ℤ :=
  if results.length = 0 then none
  else some (jsRound (summaryConfSum results / results.length))

/-- The `documentSummary` object of `analyzeCredit`. -/
structure DocumentSummary where
  totalDocuments : ℕ
  documentTypes : List JSVal
  averageConfidence : Option ℤ
  totalProcessingTime : ℚ
  totalImages : ℕ

/-- `documentSummary` as built in `analyzeCredit`. -/
def buildDocumentSummary (results : List ProcResult) : DocumentSummary :=
  { totalDocuments := results.length
    documentTypes := dedupFirst (results.map fun r => jsGet (.obj r.extractedData) "documentType")
    averageConfidence := averageConfidence results
    totalProcessingTime := (results.map ProcResult.processingTime).sum
    totalImages := (results.map ProcResult.imageCount).sum }

/-!
## Fact Combiner and per-document loop — src/unnamed/part_001

Per-image extracted facts arrive as JavaScript objects (`JSObj`); the
external vision call and the file conversions are an oracle carried by the
modelled input (`DocFile.outcome`): either the list of per-image fact
objects, or the message of a thrown error.  `combineExtractedData` itself
can throw (spreading a truthy non-iterable `riskFactors`), so it returns
`Except`.
-/

/-- The eight recognized financial fields of `extractFinancialMetrics`. -/
def financialFields : List String :=
  [ "accountBalance", "monthlyIncome", "monthlyExpenses", "annualRevenue"
  , "netProfit", "totalAssets", "totalLiabilities", "cashFlow" ]

/-- The five fields `combineFinancialMetrics` actually averages. -/
def combineFields : List String :=
  ["accountBalance", "monthlyIncome", "monthlyExpenses", "annualRevenue", "netProfit"]

/-- The test `data[field] && typeof data[field] === 'number'` of
`extractFinancialMetrics` — a truthy number, so `0` and `NaN` are
dropped. -/
def truthyNumericAt (data : JSObj) (f : String) : Option ℚ :=
  match jsGet (.obj data) f with
  | .num (some q) => if q = 0 then none else some q
  | _ => none

/-- `extractFinancialMetrics(data)`: keep each recognized field whose value
is a truthy number; `null` when nothing qualifies. -/
def extractFinancialMetrics (data : JSObj) : Option JSObj :=
  let metrics := financialFields.filterMap fun f =>
    (truthyNumericAt data f).map fun q => (f, JSVal.num (some q))
  if metrics.length > 0 then some metrics else none

/-- One field of `combineFinancialMetrics`: `.map(m => m[field]).filter(v =>
v !== undefined)`, then the average when any value is left.  The surviving
values are numbers on every path (they come out of
`extractFinancialMetrics`), which `numOf` reads back. -/
def fieldMean (metricsArray : List JSObj) (f : String) : Option ℚ :=
  let values := (metricsArray.map fun m => jsGet (.obj m) f).filter fun v => !JSVal.beq v .undef
  if values.length > 0 then some ((values.map numOf).sum / values.length) else none

/-- `combineFinancialMetrics(metricsArray)`: the five averaged fields. -/
def combineFinancialMetrics (metricsArray : List JSObj) : JSObj :=
  combineFields.filterMap fun f => (fieldMean metricsArray f).map fun q => (f, JSVal.num (some q))

/-- `[...v]`: arrays spread to their elements, strings to their characters,
and any other truthy value is not iterable — JavaScript throws. -/
def jsSpread (v : JSVal) : Except String (List JSVal) :=
  match v with
  | .arr xs => .ok xs
  | .str s => .ok (s.data.map fun c => JSVal.str ⟨[c]⟩)
  | _ => .error "riskFactors is not iterable"

/-- The multi-image loop `if (data.riskFactors)
combined.riskFactors.push(...data.riskFactors)`. -/
def gatherRiskFactors (dataArray : List JSObj) : Except String (List JSVal) :=
  dataArray.foldlM
    (fun acc d =>
      let v := jsGet (.obj d) "riskFactors"
      if jsTruthy v then (jsSpread v).map (acc ++ ·) else .ok acc)
    []

/-- `combineExtractedData(dataArray, documentType)`. -/
def combineExtractedData (dataArray : List JSObj) (documentType : String) :
    Except String JSObj :=
  match dataArray with
  | [] =>
    .ok [ ("documentType", .str documentType)
        , ("keyInformation", .obj [])
        , ("riskFactors", .arr [.str "No data extracted"])
        , ("confidence", .num (some 0)) ]
  | [d] =>
    .ok [ ("documentType", jsOr (jsGet (.obj d) "documentType") (.str documentType))
        , ("keyInformation", .obj d)
        , ("riskFactors", jsOr (jsGet (.obj d) "riskFactors") (.arr []))
        , ("financialMetrics",
            match extractFinancialMetrics d with
            | some m => .obj m
            | none => .null) ]
  | _ => do
    let rf ← gatherRiskFactors dataArray
    let metrics := (dataArray.map extractFinancialMetrics).filterMap id
    let fm := if metrics.length > 0 then combineFinancialMetrics metrics else []
    let ki := dataArray.foldl jsAssign []
    pure [ ("documentType", .str documentType)
         , ("keyInformation", .obj ki)
         , ("riskFactors", .arr (dedupFirst rf))
         , ("financialMetrics", .obj fm) ]

/-- `determineDocumentType(filename)`. -/
def determineDocumentType (filename : String) : String :=
  let lowerName := lowerChars filename.data
  if containsSub lowerName "bank".data || containsSub lowerName "statement".data then
    "bank_statement"
  else if containsSub lowerName "financial".data || containsSub lowerName "income".data ||
      containsSub lowerName "revenue".data then
    "financial"
  else if containsSub lowerName "legal".data || containsSub lowerName "contract".data ||
      containsSub lowerName "agreement".data then
    "legal"
  else "unknown"

/-- One uploaded document as `processDocuments` sees it.  `outcome` is the
oracle for everything `processIndividualDocument` awaits (PDF conversion,
image preparation, one vision-model call per image): the per-image fact
objects on success, the thrown error's message otherwise.  `time` is the
measured whole-second processing duration. -/
structure DocFile where
  id : String
  originalName : String
  outcome : Except String (List JSObj)
  time : ℚ

/-- The error placeholder record pushed when a document's processing
throws. -/
def errorExtractedData : JSObj :=
  [ ("documentType", .str "error")
  , ("keyInformation", .obj [])
  , ("riskFactors", .arr [.str "Document processing failed"])
  , ("confidence", .num (some 0)) ]

/-- `processIndividualDocument` wrapped in the loop's `try/catch`: a success
builds the combined record (one extraction per image, so `imageCount` is
the number of fact objects); any throw — from the oracle or from
`combineExtractedData` — is caught and replaced by the error record. -/
def processOneDocument (f : DocFile) : ProcResult :=
  match f.outcome.bind (fun facts =>
      (combineExtractedData facts (determineDocumentType f.originalName)).map
        fun c => (facts, c)) with
  | .ok (facts, combined) =>
    { fileId := f.id, fileName := f.originalName, error := none
      extractedData := combined, imageCount := facts.length, processingTime := f.time }
  | .error msg =>
    { fileId := f.id, fileName := f.originalName, error := some msg
      extractedData := errorExtractedData, imageCount := 0, processingTime := 0 }

/-- `processDocuments(files)`: the sequential `for … try/catch … push`
loop. -/
def processDocuments (files : List DocFile) : List ProcResult :=
  files.foldl (fun results f => results ++ [processOneDocument f]) []

/-!
## AI-response JSON recovery — src/server/services/ollamaClient.js, `extractJSON`

`JSON.parse` is modelled by `jsonParse`: a recursive-descent parser of the
JSON grammar (objects, arrays, strings with escapes, decimal numbers,
`true`/`false`/`null`) with a step budget that the input's length always
covers, so parser internals never need termination reasoning.  A parse
error is `none` — every `JSON.parse` call in the source sits inside a
`try/catch` whose handler just moves on.
-/

/-- JSON insignificant whitespace. -/
def jsonWs (l : List Char) : List Char :=
  l.dropWhile fun c => c = ' ' || c = '\t' || c = '\n' || c = '\r'

/-- Value of a hexadecimal digit. -/
def hexDigitVal (c : Char) : Option ℕ :=
  if c.isDigit then some (c.toNat - 48)
  else if 'a' ≤ c ∧ c ≤ 'f' then some (c.toNat - 87)
  else if 'A' ≤ c ∧ c ≤ 'F' then some (c.toNat - 55)
  else none

/-- JSON string body after the opening quote: characters and escapes up to
the closing quote.  A `\uXXXX` escape becomes the corresponding character
(surrogate pairing of astral characters is not modelled — no modelled input
contains one). -/
def parseJStringF : ℕ → List Char → List Char → Option (String × List Char)
  | 0, _, _ => none
  | fuel + 1, acc, l =>
    match l with
    | [] => none
    | '"' :: r => some (⟨acc.reverse⟩, r)
    | '\\' :: r =>
      match r with
      | '"' :: r2 => parseJStringF fuel ('"' :: acc) r2
      | '\\' :: r2 => parseJStringF fuel ('\\' :: acc) r2
      | '/' :: r2 => parseJStringF fuel ('/' :: acc) r2
      | 'b' :: r2 => parseJStringF fuel ('\x08' :: acc) r2
      | 'f' :: r2 => parseJStringF fuel ('\x0c' :: acc) r2
      | 'n' :: r2 => parseJStringF fuel ('\n' :: acc) r2
      | 'r' :: r2 => parseJStringF fuel ('\r' :: acc) r2
      | 't' :: r2 => parseJStringF fuel ('\t' :: acc) r2
      | 'u' :: h1 :: h2 :: h3 :: h4 :: r2 =>
        match hexDigitVal h1, hexDigitVal h2, hexDigitVal h3, hexDigitVal h4 with
        | some v1, some v2, some v3, some v4 =>
          parseJStringF fuel (Char.ofNat (((v1 * 16 + v2) * 16 + v3) * 16 + v4) :: acc) r2
        | _, _, _, _ => none
      | _ => none
    | c :: r => if c.toNat ≥ 32 then parseJStringF fuel (c :: acc) r else none

/-- A JSON number literal: optional minus, integer part without leading
zeros, optional fraction, optional exponent. -/
def parseJNumber (l : List Char) : Option (ℚ × List Char) :=
  let signed : Bool × List Char := match l with | '-' :: t => (true, t) | _ => (false, l)
  let intRes : Option (ℕ × List Char) :=
    match signed.2 with
    | '0' :: t =>
      match t with
      | c :: _ => if c.isDigit then none else some (0, t)
      | [] => some (0, [])
    | c :: _ =>
      if c.isDigit then
        let (ds, t) := signed.2.span Char.isDigit
        some (digitsToNat ds, t)
      else none
    | [] => none
  match intRes with
  | none => none
  | some (ip, rest1) =>
    let fracRes : Option (ℚ × List Char) :=
      match rest1 with
      | '.' :: t =>
        let (fs, t2) := t.span Char.isDigit
        if fs = [] then none
        else some ((digitsToNat fs : ℚ) / (10 : ℚ) ^ fs.length, t2)
      | _ => some (0, rest1)
    match fracRes with
    | none => none
    | some (fq, rest2) =>
      let expRes : Option (ℤ × List Char) :=
        match rest2 with
        | 'e' :: t | 'E' :: t =>
          let signedE : ℤ × List Char :=
            match t with
            | '+' :: u => (1, u)
            | '-' :: u => (-1, u)
            | _ => (1, t)
          let (ds, t2) := signedE.2.span Char.isDigit
          if ds = [] then none else some (signedE.1 * digitsToNat ds, t2)
        | _ => some (0, rest2)
      match expRes with
      | none => none
      | some (e, rest3) =>
        let mag : ℚ := ((ip : ℚ) + fq) * (10 : ℚ) ^ e
        some (if signed.1 then -mag else mag, rest3)

mutual

/-- One JSON value at the head of the input (leading whitespace already
consumed), returning the remainder. -/
def parseJValue : ℕ → List Char → Option (JSVal × List Char)
  | 0, _ => none
  | fuel + 1, l =>
    match l with
    | '{' :: r =>
      match jsonWs r with
      | '}' :: r2 => some (.obj [], r2)
      | r1 => (parseJMembers fuel r1 []).map fun p => (.obj p.1, p.2)
    | '[' :: r =>
      match jsonWs r with
      | ']' :: r2 => some (.arr [], r2)
      | r1 => (parseJItems fuel r1 []).map fun p => (.arr p.1, p.2)
    | '"' :: r => (parseJStringF (r.length + 1) [] r).map fun p => (.str p.1, p.2)
    | 't' :: 'r' :: 'u' :: 'e' :: r => some (.bool true, r)
    | 'f' :: 'a' :: 'l' :: 's' :: 'e' :: r => some (.bool false, r)
    | 'n' :: 'u' :: 'l' :: 'l' :: r => some (.null, r)
    | _ => (parseJNumber l).map fun p => (.num (some p.1), p.2)

/-- Object members, starting at a key. -/
def parseJMembers : ℕ → List Char → JSObj → Option (JSObj × List Char)
  | 0, _, _ => none
  | fuel + 1, l, acc =>
    match l with
    | '"' :: r =>
      match parseJStringF (r.length + 1) [] r with
      | none => none
      | some (k, r2) =>
        match jsonWs r2 with
        | ':' :: r3 =>
          match parseJValue fuel (jsonWs r3) with
          | none => none
          | some (v, r4) =>
            match jsonWs r4 with
            | ',' :: r5 => parseJMembers fuel (jsonWs r5) (acc ++ [(k, v)])
            | '}' :: r5 => some (acc ++ [(k, v)], r5)
            | _ => none
        | _ => none
    | _ => none

/-- Array items, starting at a value. -/
def parseJItems : ℕ → List Char → List JSVal → Option (List JSVal × List Char)
  | 0, _, _ => none
  | fuel + 1, l, acc =>
    match parseJValue fuel l with
    | none => none
    | some (v, r) =>
      match jsonWs r with
      | ',' :: r2 => parseJItems fuel (jsonWs r2) (acc ++ [v])
      | ']' :: r2 => some (acc ++ [v], r2)
      | _ => none

end

/-- `JSON.parse(text)`: one JSON value surrounded by whitespace, nothing
else; `none` on any syntax error. -/
def jsonParse (l : List Char) : Option JSVal :=
  match parseJValue (l.length + 1) (jsonWs l) with
  | some (v, rest) => if jsonWs rest = [] then some v else none
  | none => none

/-!
### Strategy 1 — `text.match(/\{[\s\S]*?\}/g)`

The non-greedy pattern pairs each `{` (scanning left to right, matches not
overlapping) with the *first* `}` after it; every such substring is parsed
in order and the first parse that yields a truthy `object` is returned.
-/

/-- The global lazy brace matches; the optional accumulator is the open
match in progress. -/
def lazyMatchesGo : List Char → Option (List Char) → List (List Char)
  | [], _ => []
  | c :: rest, none =>
    if c = '{' then lazyMatchesGo rest (some ['{']) else lazyMatchesGo rest none
  | c :: rest, some acc =>
    if c = '}' then (acc ++ ['}']) :: lazyMatchesGo rest none
    else lazyMatchesGo rest (some (acc ++ [c]))

/-- All matches of `/\{[\s\S]*?\}/g`. -/
def lazyBraceMatches (l : List Char) : List (List Char) := lazyMatchesGo l none

/-- `parsed && typeof parsed === 'object'`: a truthy value of object type
(arrays included, `null` excluded by truthiness). -/
def isTruthyObject : JSVal → Bool
  | .obj _ => true
  | .arr _ => true
  | _ => false

/-- Strategy 1: first lazily-matched brace span that parses to a truthy
object. -/
def strategy1 (l : List Char) : Option JSVal :=
  (lazyBraceMatches l).foldl
    (fun acc m =>
      match acc with
      | some v => some v
      | none =>
        match jsonParse m with
        | some p => if isTruthyObject p then some p else none
        | none => none)
    none

/-!
### Strategy 2 — ``/```(?:json)?\s*(\{[\s\S]*?\})\s*```/i``

Scanning left to right for a backtick fence, then (optionally) `json`
case-insensitively, whitespace, a `{`, and the lazily-first `}` that is
followed by whitespace and a closing fence.  Only the first such match is
tried; a parse failure falls through to strategy 3.
-/

/-- Three backticks. -/
def fence3 : List Char := ['`', '`', '`']

/-- Lazy search for the `}` whose tail is `\s*` + closing fence; the
accumulator carries the group so far (starting at `{`). -/
def searchCloseFence : List Char → List Char → Option (List Char)
  | [], _ => none
  | c :: r2, acc =>
    if c = '}' ∧ fence3.isPrefixOf (r2.dropWhile isWsChar) then some (acc ++ ['}'])
    else searchCloseFence r2 (acc ++ [c])

/-- The fence body after the optional `json` tag: whitespace, `{`, then the
lazy close search. -/
def tryFenceBody (b : List Char) : Option (List Char) :=
  match b.dropWhile isWsChar with
  | '{' :: r => searchCloseFence r ['{']
  | _ => none

/-- Case-insensitive `json` tag test. -/
def startsWithJsonCI (l : List Char) : Bool :=
  "json".data.isPrefixOf (lowerChars (l.take 4))

/-- Left-to-right scan for the first position where the fenced pattern
matches, returning its captured group.  When the `json` tag is present but
the rest fails, the tagless alternative would resume at the letter `j` and
necessarily fail too, so simply consuming the tag when present is
faithful. -/
def fenceScan : List Char → Option (List Char)
  | [] => none
  | c :: rest =>
    match
      (if fence3.isPrefixOf (c :: rest) then
        let after := (c :: rest).drop 3
        tryFenceBody (if startsWithJsonCI after then after.drop 4 else after)
      else none) with
    | some g => some g
    | none => fenceScan rest

/-- Strategy 2. -/
def strategy2 (l : List Char) : Option JSVal :=
  match fenceScan l with
  | some g => jsonParse g
  | none => none

/-!
### Strategy 3 — line scan tracking brace depth

The first line whose trimmed form starts with `{` opens the block with a
count of one — the rest of that line is *not* counted (a quirk kept as in
the source) — and the block closes at the first subsequent line after which
the running count is zero.
-/

/-- Split on `'\n'` (as `text.split('\n')`). -/
def splitLinesGo : List Char → List Char → List (List Char)
  | [], cur => [cur.reverse]
  | c :: r, cur =>
    if c = '\n' then cur.reverse :: splitLinesGo r [] else splitLinesGo r (c :: cur)

/-- All lines of the text. -/
def splitLines (l : List Char) : List (List Char) := splitLinesGo l []

/-- Net brace count of one line (the per-character order does not matter:
the zero test runs only at the end of each line). -/
def lineBraceDelta (line : List Char) : ℤ :=
  (line.count '{' : ℤ) - (line.count '}' : ℤ)

/-- Does the trimmed line start with `{`? -/
def lineStartsWithBrace (line : List Char) : Bool :=
  match trimChars line with
  | '{' :: _ => true
  | _ => false

/-- Number of further lines until the running count reaches zero (at a line
end), if ever. -/
def findJsonEnd : List (List Char) → ℤ → Option ℕ
  | [], _ => none
  | line :: rest, count =>
    let c2 := count + lineBraceDelta line
    if c2 = 0 then some 0 else (findJsonEnd rest c2).map (· + 1)

/-- Join lines back with `'\n'`. -/
def joinNl : List (List Char) → List Char
  | [] => []
  | [l] => l
  | l :: ls => l ++ '\n' :: joinNl ls

/-- The `lines.slice(jsonStart, jsonEnd + 1).join('\n')` text, if the scan
finds a block.  Only the *first* line opening a block is considered (the
source latches `jsonStart` once). -/
def strategy3Go : List (List Char) → Option (List Char)
  | [] => none
  | line :: rest =>
    if lineStartsWithBrace line then
      match findJsonEnd rest 1 with
      | some j => some (joinNl (line :: rest.take (j + 1)))
      | none => none
    else strategy3Go rest

/-- Strategy 3. -/
def strategy3 (l : List Char) : Option JSVal :=
  match strategy3Go (splitLines l) with
  | some txt => jsonParse txt
  | none => none

/-!
### Strategy 4 — heuristic repair

The source's chain of `replace` calls, each modelled as one scan.  The
scans that can skip more than one character per step carry a step budget
(always initialized to more than the input length, so it never runs out).
-/

/-- `.replace(/```json/gi, '')`. -/
def stripJsonFenceF : ℕ → List Char → List Char
  | 0, l => l
  | _, [] => []
  | fuel + 1, c :: rest =>
    if "```json".data.isPrefixOf (lowerChars ((c :: rest).take 7)) then
      stripJsonFenceF fuel ((c :: rest).drop 7)
    else c :: stripJsonFenceF fuel rest

/-- `.replace(/```/g, '')`. -/
def stripFenceF : ℕ → List Char → List Char
  | 0, l => l
  | _, [] => []
  | fuel + 1, c :: rest =>
    if fence3.isPrefixOf (c :: rest) then stripFenceF fuel ((c :: rest).drop 3)
    else c :: stripFenceF fuel rest

/-- Offset of the first `{` reachable from here across `[\w\s]` characters
only. -/
def braceAfterWordSpace : List Char → Option ℕ
  | [] => none
  | c :: rest =>
    if c = '{' then some 0
    else if isWordOrWs c then (braceAfterWordSpace rest).map (· + 1)
    else none

/-- `.replace(/^\s*[\w\s]*?(\{)/m, '$1')`: at the first line start from
which a `{` is reachable across word/whitespace characters, delete
everything up to that `{}`; a single (non-global) replacement. -/
def removeBeforeBraceGo : List Char → Bool → List Char
  | [], _ => []
  | c :: rest, atStart =>
    if atStart then
      match braceAfterWordSpace (c :: rest) with
      | some q => (c :: rest).drop q
      | none => c :: removeBeforeBraceGo rest (c = '\n' ∨ c = '\r')
    else c :: removeBeforeBraceGo rest (c = '\n' ∨ c = '\r')

/-- Length of the `[\w\s]` run from here to the nearest line end (`$` in
multiline mode: end of string, or before `\n`/`\r`), if the whole run
qualifies. -/
def tailWordSpaceRun : List Char → Option ℕ
  | [] => some 0
  | c :: rest =>
    if c = '\n' ∨ c = '\r' then some 0
    else if isWordOrWs c then (tailWordSpaceRun rest).map (· + 1)
    else none

/-- `.replace(/(\})\s*[\w\s]*?$/m, '$1')`: after the first `}` whose tail
up to a line end is all word/whitespace, delete that tail; a single
replacement. -/
def removeAfterBraceGo : List Char → List Char
  | [] => []
  | c :: rest =>
    if c = '}' then
      match tailWordSpaceRun rest with
      | some n => '}' :: rest.drop n
      | none => c :: removeAfterBraceGo rest
    else c :: removeAfterBraceGo rest

/-- `.replace(/,\s*X/g, 'X')` for `X` one of `}`/`]`: drop a comma (and the
whitespace) directly preceding the closer. -/
def dropTrailingCommaF (close : Char) : ℕ → List Char → List Char
  | 0, l => l
  | _, [] => []
  | fuel + 1, c :: rest =>
    if c = ',' then
      match rest.dropWhile isWsChar with
      | c2 :: r2 =>
        if c2 = close then close :: dropTrailingCommaF close fuel r2
        else c :: dropTrailingCommaF close fuel rest
      | [] => c :: dropTrailingCommaF close fuel rest
    else c :: dropTrailingCommaF close fuel rest

/-- `.replace(/([{,]\s*)(\w+):/g, '$1"$2":')`: quote a bare word key after
`{` or `,`. -/
def quoteKeysF : ℕ → List Char → List Char
  | 0, l => l
  | _, [] => []
  | fuel + 1, c :: rest =>
    if c = '{' ∨ c = ',' then
      let ws := rest.takeWhile isWsChar
      let afterWs := rest.dropWhile isWsChar
      let word := afterWs.takeWhile isWordChar
      let afterWord := afterWs.dropWhile isWordChar
      match afterWord with
      | ':' :: r2 =>
        if word = [] then c :: quoteKeysF fuel rest
        else c :: (ws ++ '"' :: word ++ '"' :: ':' :: quoteKeysF fuel r2)
      | _ => c :: quoteKeysF fuel rest
    else c :: quoteKeysF fuel rest

/-- May a character open a bare scalar value (`[^",{\[\]}\s]`)? -/
def isValueStart (c : Char) : Bool :=
  !(c = '"' || c = ',' || c = '{' || c = '[' || c = ']' || c = '}' || isWsChar c)

/-- May a character continue a bare scalar value (`[^",{\[\]}]`)? -/
def isValueChar (c : Char) : Bool :=
  !(c = '"' || c = ',' || c = '{' || c = '[' || c = ']' || c = '}')

/-- Lazy search for the end of a bare value: at each boundary first try to
stop (whitespace then `,` or `}`), otherwise consume one more value
character.  Returns (rest of group 1, group 2, remainder). -/
def findValueStop : ℕ → List Char → Option (List Char × List Char × List Char)
  | 0, _ => none
  | fuel + 1, l =>
    let ws := l.takeWhile isWsChar
    let afterWs := l.dropWhile isWsChar
    match
      (match afterWs with
       | d :: r2 => if d = ',' ∨ d = '}' then some (([] : List Char), ws ++ [d], r2) else none
       | [] => none) with
    | some stop => some stop
    | none =>
      match l with
      | [] => none
      | c :: r3 =>
        if isValueChar c then
          (findValueStop fuel r3).map fun t => (c :: t.1, t.2.1, t.2.2)
        else none

/-- `.replace(/:\s*([^",{\[\]}\s][^",{\[\]}]*?)(\s*[,}])/g, ':"$1"$2')`:
quote a bare scalar value; note the whitespace right after the `:` is
dropped by the replacement. -/
def quoteValuesF : ℕ → List Char → List Char
  | 0, l => l
  | _, [] => []
  | fuel + 1, c :: rest =>
    if c = ':' then
      match rest.dropWhile isWsChar with
      | v0 :: r2 =>
        if isValueStart v0 then
          match findValueStop (r2.length + 1) r2 with
          | some (g1, g2, r) => ':' :: '"' :: (v0 :: g1) ++ '"' :: (g2 ++ quoteValuesF fuel r)
          | none => ':' :: quoteValuesF fuel rest
        else ':' :: quoteValuesF fuel rest
      | [] => ':' :: quoteValuesF fuel rest
    else c :: quoteValuesF fuel rest

/-- The `cleanedText` of strategy 4: both `replace` chains and the
`trim`. -/
def cleanedText (l : List Char) : List Char :=
  let t1 := stripJsonFenceF (l.length + 1) l
  let t2 := stripFenceF (t1.length + 1) t1
  let t3 := removeBeforeBraceGo t2 true
  let t4 := removeAfterBraceGo t3
  let t5 := trimChars t4
  let t6 := dropTrailingCommaF '}' (t5.length + 1) t5
  let t7 := dropTrailingCommaF ']' (t6.length + 1) t6
  let t8 := quoteKeysF (t7.length + 1) t7
  quoteValuesF (t8.length + 1) t8

/-- Strategy 4: `JSON.parse` of the repaired text — returned *without* an
object-type check, unlike strategy 1. -/
def repairParse (l : List Char) : Option JSVal := jsonParse (cleanedText l)

/-- `extractJSON(text)` for a string argument (`!text` rejects only the
empty string then). -/
def extractJSON (text : String) : Option JSVal :=
  if text = "" then none
  else
    match strategy1 text.data with
    | some v => some v
    | none =>
      match strategy2 text.data with
      | some v => some v
      | none =>
        match strategy3 text.data with
        | some v => some v
        | none => repairParse text.data

/-!
## Helper lemmas
-/

theorem dropWhile_self (p : Char → Bool) (l : List Char) :
    (l.dropWhile p).dropWhile p = l.dropWhile p := by
  induction l with
  | nil => simp
  | cons c t ih =>
    by_cases h : p c
    · simp [List.dropWhile_cons, h, ih]
    · simp [List.dropWhile_cons, h]

theorem dropTrailing_idem (p : Char → Bool) (l : List Char) :
    dropTrailing p (dropTrailing p l) = dropTrailing p l := by
  simp [dropTrailing, dropWhile_self]

theorem dropWhile_head_false {p : Char → Bool} {l t : List Char} {c : Char}
    (h : l.dropWhile p = c :: t) : p c = false := by
  induction l with
  | nil => simp at h
  | cons a r ih =>
    by_cases ha : p a
    · rw [List.dropWhile_cons, if_pos ha] at h; exact ih h
    · rw [List.dropWhile_cons, if_neg ha] at h
      cases h
      simpa using ha

theorem dropTrailing_cons_of_not {p : Char → Bool} {c : Char} (t : List Char)
    (hc : p c = false) : ∃ u, dropTrailing p (c :: t) = c :: u := by
  unfold dropTrailing
  rw [List.reverse_cons, List.dropWhile_append]
  by_cases he : (t.reverse.dropWhile p).isEmpty
  · exact ⟨[], by simp [he, List.dropWhile_cons, hc]⟩
  · exact ⟨(t.reverse.dropWhile p).reverse, by simp [he]⟩

theorem trimChars_idem (l : List Char) : trimChars (trimChars l) = trimChars l := by
  have hmid : (dropTrailing isWsChar (l.dropWhile isWsChar)).dropWhile isWsChar
      = dropTrailing isWsChar (l.dropWhile isWsChar) := by
    cases hm : l.dropWhile isWsChar with
    | nil => simp [dropTrailing]
    | cons c t =>
      have hc : isWsChar c = false := dropWhile_head_false hm
      obtain ⟨u, hu⟩ := dropTrailing_cons_of_not t hc
      rw [hu, List.dropWhile_cons, if_neg (by simp [hc])]
  unfold trimChars
  rw [hmid, dropTrailing_idem]

theorem string_mk_data (l : List Char) : (⟨l⟩ : String).data = l := rfl


theorem string_ne_empty_iff (s : String) : s ≠ "" ↔ s.data ≠ [] := by
  cases s with
  | mk d =>
    constructor
    · intro h hd
      have hd' : d = [] := hd
      subst hd'
      exact h rfl
    · intro h he
      exact h (congrArg String.data he)

theorem keepNonblank_some {item : JSVal} {s : String} (h : keepNonblank item = some s) :
    trimChars s.data = s.data ∧ s ≠ "" := by
  cases item with
  | str s0 =>
    simp only [keepNonblank] at h
    by_cases h0 : (trimChars s0.data).length > 0
    · rw [if_pos h0] at h
      cases h
      refine ⟨by simp [jsTrim, string_mk_data, trimChars_idem], ?_⟩
      rw [string_ne_empty_iff]
      simp only [jsTrim, string_mk_data]
      intro hnil
      rw [hnil] at h0
      simp at h0
    · rw [if_neg h0] at h
      cases h
  | undef => simp [keepNonblank] at h
  | null => simp [keepNonblank] at h
  | bool b => simp [keepNonblank] at h
  | num n => simp [keepNonblank] at h
  | arr ys => simp [keepNonblank] at h
  | obj fs => simp [keepNonblank] at h

theorem keepNonblank_of_trimmed {s : String} (h1 : trimChars s.data = s.data)
    (h2 : s ≠ "") : keepNonblank (.str s) = some s := by
  have hd : s.data ≠ [] := (string_ne_empty_iff s).mp h2
  have hlen : (trimChars s.data).length > 0 := by
    rw [h1]
    cases hq : s.data with
    | nil => exact absurd hq hd
    | cons x y => simp [hq]
  simp only [keepNonblank, if_pos hlen]
  have : jsTrim s = s := by
    show (⟨trimChars s.data⟩ : String) = s
    rw [h1]
  rw [this]

/-- The output of `sanitizeStringArray` has between 1 and 6 entries, each a
trimmed nonblank string (given a well-formed fallback). -/
theorem sanitizeStringArray_spec (v : JSVal) (fb : String)
    (hfb1 : trimChars fb.data = fb.data) (hfb2 : fb ≠ "") :
    1 ≤ (sanitizeStringArray v fb).length ∧ (sanitizeStringArray v fb).length ≤ 6 ∧
      ∀ s ∈ sanitizeStringArray v fb, trimChars s.data = s.data ∧ s ≠ "" := by
  cases v
  case arr xs =>
    simp only [sanitizeStringArray]
    by_cases hlen : ((xs.filterMap keepNonblank).take 6).length > 0
    · rw [if_pos hlen]
      refine ⟨hlen, by simp [List.length_take], ?_⟩
      intro s hs
      obtain ⟨item, _, hitem⟩ := List.mem_filterMap.mp (List.mem_of_mem_take hs)
      exact keepNonblank_some hitem
    · rw [if_neg hlen]
      refine ⟨by simp, by simp, ?_⟩
      intro s hs
      rw [List.mem_singleton] at hs
      subst hs
      exact ⟨hfb1, hfb2⟩
  all_goals
    refine ⟨by simp [sanitizeStringArray], by simp [sanitizeStringArray], ?_⟩
  all_goals
    intro s hs
  all_goals
    simp only [sanitizeStringArray, List.mem_singleton] at hs
  all_goals
    subst hs
  all_goals
    exact ⟨hfb1, hfb2⟩

/-- `sanitizeStringArray` is the identity on an array of 1-6 trimmed
nonblank strings. -/
theorem sanitizeStringArray_fixed (L : List String) (fb : String)
    (h1 : 1 ≤ L.length) (h6 : L.length ≤ 6)
    (hs : ∀ s ∈ L, trimChars s.data = s.data ∧ s ≠ "") :
    sanitizeStringArray (.arr (L.map .str)) fb = L := by
  have hfm : ∀ M : List String, (∀ s ∈ M, trimChars s.data = s.data ∧ s ≠ "") →
      M.filterMap (fun s => keepNonblank (.str s)) = M := by
    intro M hM
    induction M with
    | nil => simp
    | cons a t ih =>
      rw [List.filterMap_cons,
        keepNonblank_of_trimmed (hM a (by simp)).1 (hM a (by simp)).2,
        ih (fun s h => hM s (by simp [h]))]
  simp only [sanitizeStringArray, List.filterMap_map]
  rw [show keepNonblank ∘ JSVal.str = fun s => keepNonblank (.str s) from rfl,
    hfm L hs, List.take_of_length_le h6, if_pos (by omega)]

theorem sanitizeText_spec (v : JSVal) (d : String)
    (hd1 : trimChars d.data = d.data) (hd2 : d ≠ "") :
    trimChars (sanitizeText v d).data = (sanitizeText v d).data ∧ sanitizeText v d ≠ "" := by
  simp only [sanitizeText]
  by_cases h : jsTrim (jsToString (jsOr v (.str ""))) = ""
  · rw [if_pos h]
    exact ⟨hd1, hd2⟩
  · rw [if_neg h]
    refine ⟨?_, h⟩
    simp [jsTrim, string_mk_data, trimChars_idem]

theorem sanitizeText_fixed (t : String) (d : String)
    (h1 : trimChars t.data = t.data) (h2 : t ≠ "") : sanitizeText (.str t) d = t := by
  have htr : jsTruthy (.str t) = true := by simp [jsTruthy, h2]
  have hstr : jsToString (jsOr (.str t) (.str "")) = t := by
    simp [jsOr, htr, jsToString, jsToChars]
  simp only [sanitizeText, hstr]
  have hjt : jsTrim t = t := by
    show (⟨trimChars t.data⟩ : String) = t
    rw [h1]
  rw [hjt, if_neg h2]

theorem jsOr_truthy (x d : JSVal) (hd : jsTruthy d = true) :
    jsTruthy (jsOr x d) = true := by
  simp only [jsOr]
  by_cases hx : jsTruthy x
  · rw [if_pos hx]; exact hx
  · rw [if_neg hx]; exact hd

theorem jsOr_absorb (x d d2 : JSVal) (hd : jsTruthy d = true) :
    jsOr (jsOr x d) d2 = jsOr x d := by
  simp [jsOr, jsOr_truthy x d hd]
  intro hcon
  exact absurd (jsOr_truthy x d hd) (by simp [jsOr] at hcon ⊢; exact hcon)

theorem sanitize_rating_mem (x : JSObj) (now : String) :
    (sanitizeCreditRecommendation x now).rating ∈ validRatings := by
  simp only [sanitizeCreditRecommendation]
  cases h : validateRating (jsGet (.obj x) "rating") with
  | none => simp [h, validRatings]
  | some s =>
    simp only [h, Option.getD_some]
    cases hv : jsGet (.obj x) "rating" <;> simp [validateRating, hv] at h
    case str s0 => exact h.2 ▸ h.1

theorem sanitize_riskLevel_mem (x : JSObj) (now : String) :
    (sanitizeCreditRecommendation x now).riskLevel ∈ validRiskLevels := by
  simp only [sanitizeCreditRecommendation]
  cases h : validateRiskLevel (jsGet (.obj x) "riskLevel") with
  | none => simp [h, validRiskLevels]
  | some s =>
    simp only [h, Option.getD_some]
    cases hv : jsGet (.obj x) "riskLevel" <;> simp [validateRiskLevel, hv] at h
    case str s0 => exact h.2 ▸ h.1

/-!
## Claim C2 — sanitizer output well-formedness
-/

/-- C2 (amended): for every untyped input object, `sanitize` terminates and
returns keyFactors / improvementSuggestions of length 1-6 with no empty or
whitespace-only entries, and its numeric outputs satisfy the claimed bounds
(score in [300, 850], interestRate in [0, 50], maxCreditLimit ≥ 0)
*whenever they are numbers*; a truthy but non-numeric raw `creditScore`,
`interestRate` or `maxCreditLimit` makes the corresponding output `NaN`
(`none`), which escapes the claimed ranges — see the counterexample. -/
theorem sanitize_wellformed (x : JSObj) (now : String) :
    (∀ q ∈ (sanitizeCreditRecommendation x now).score, 300 ≤ q ∧ q ≤ 850) ∧
    (∀ q ∈ (sanitizeCreditRecommendation x now).interestRate, 0 ≤ q ∧ q ≤ 50) ∧
    (∀ q ∈ (sanitizeCreditRecommendation x now).maxCreditLimit, 0 ≤ q) ∧
    (1 ≤ (sanitizeCreditRecommendation x now).keyFactors.length ∧
      (sanitizeCreditRecommendation x now).keyFactors.length ≤ 6 ∧
      ∀ s ∈ (sanitizeCreditRecommendation x now).keyFactors, trimChars s.data ≠ []) ∧
    (1 ≤ (sanitizeCreditRecommendation x now).improvementSuggestions.length ∧
      (sanitizeCreditRecommendation x now).improvementSuggestions.length ≤ 6 ∧
      ∀ s ∈ (sanitizeCreditRecommendation x now).improvementSuggestions,
        trimChars s.data ≠ []) := by
  refine ⟨?_, ?_, ?_, ?_, ?_⟩
  · intro q hq
    simp only [sanitizeCreditRecommendation] at hq
    cases ht : jsToNumber (jsOr (jsGet (.obj x) "creditScore") (.num (some 650))) with
    | none => rw [ht] at hq; simp [jsMinQ, jsMaxQ] at hq
    | some u =>
      rw [ht] at hq
      simp only [jsMinQ, jsMaxQ, Option.mem_def, Option.some_inj] at hq
      subst hq
      constructor
      · exact le_max_left _ _
      · exact max_le (by norm_num) (le_trans (min_le_left _ _) (by norm_num))
  · intro q hq
    simp only [sanitizeCreditRecommendation] at hq
    cases ht : jsToNumber (jsOr (jsGet (.obj x) "interestRate") (.num (some 15))) with
    | none => rw [ht] at hq; simp [jsMinQ, jsMaxQ] at hq
    | some u =>
      rw [ht] at hq
      simp only [jsMinQ, jsMaxQ, Option.mem_def, Option.some_inj] at hq
      subst hq
      constructor
      · exact le_max_left _ _
      · exact max_le (by norm_num) (min_le_left _ _)
  · intro q hq
    simp only [sanitizeCreditRecommendation] at hq
    cases ht : jsToNumber (jsOr (jsGet (.obj x) "maxCreditLimit") (.num (some 10000))) with
    | none => rw [ht] at hq; simp [jsMaxQ] at hq
    | some u =>
      rw [ht] at hq
      simp only [jsMaxQ, Option.mem_def, Option.some_inj] at hq
      subst hq
      exact le_max_left _ _
  · have h := sanitizeStringArray_spec (jsGet (.obj x) "keyFactors")
      "Positive factor identified" (by decide) (by decide)
    refine ⟨h.1, h.2.1, ?_⟩
    intro s hs
    have hm := h.2.2 s hs
    rw [hm.1]
    exact (string_ne_empty_iff s).mp hm.2
  · have h := sanitizeStringArray_spec (jsGet (.obj x) "improvementSuggestions")
      "Consider improvement" (by decide) (by decide)
    refine ⟨h.1, h.2.1, ?_⟩
    intro s hs
    have hm := h.2.2 s hs
    rw [hm.1]
    exact (string_ne_empty_iff s).mp hm.2

/-- C2 counterexample: a truthy, non-numeric `creditScore` (the string
"not a number") survives the `|| 650` default and `Math.min`/`Math.max`
turn it into `NaN` (`none`) — the returned score is not in [300, 850], so
the claim as stated fails. -/
theorem sanitize_nonnumeric_score_is_nan :
    (sanitizeCreditRecommendation [("creditScore", .str "not a number")] "T").score
      = none := rfl

/-- C2 witness: the bounds theorem applied at the empty raw object. -/
theorem sanitize_wellformed_witness :
    ∀ q ∈ (sanitizeCreditRecommendation [] "T").score, 300 ≤ q ∧ q ≤ 850 :=
  (sanitize_wellformed [] "T").1

/-!
## Claim C3 — combining an empty extraction sequence
-/

/-- C3 counterexample: `combine([], "financial")` yields documentType
`"financial"` — the *declared* type, not `"error"` as claimed. -/
theorem combine_empty_financial_not_error :
    (combineExtractedData [] "financial").map (fun c => jsGet (.obj c) "documentType")
        = .ok (.str "financial")
      ∧ "financial" ≠ "error" := ⟨rfl, by decide⟩

/-- C3 (amended): for every declared document type `t`, combining an empty
sequence of extracted facts yields documentType = `t` (the declared type,
not `"error"`), empty keyInformation, riskFactors `["No data extracted"]`,
and confidence 0. -/
theorem combine_empty_record (t : String) :
    combineExtractedData [] t =
      .ok [ ("documentType", .str t)
          , ("keyInformation", .obj [])
          , ("riskFactors", .arr [.str "No data extracted"])
          , ("confidence", .num (some 0)) ] := rfl

/-!
## Claim C9 — fallback confidence formula
-/

/-- C9 (confirmed): for a non-empty result sequence whose error fields are
absent or non-empty messages, the fallback confidence is
`clamp(75 + min(2·n, 10) − 15·e, 50, 95)` with `n` the number of documents
and `e` the number of documents carrying a processing error. -/
theorem fallbackConfidence_formula (results : List ProcResult) (_hne : results ≠ [])
    (herr : ∀ r ∈ results, r.error ≠ some "") :
    calculateFallbackConfidence results =
      max 50 (min 95 (75 + min (2 * (results.length : ℤ)) 10
        - 15 * (((results.filter fun r => r.error ≠ none).length : ℤ)))) := by
  have hfilter : (results.filter fun r => errTruthy r.error)
      = results.filter fun r => r.error ≠ none := by
    apply List.filter_congr
    intro r hr
    cases he : r.error with
    | none => simp [errTruthy]
    | some s =>
      have : s ≠ "" := by
        intro hcon
        exact herr r hr (by rw [he, hcon])
      simp [errTruthy, this]
  simp only [calculateFallbackConfidence, hfilter]
  ring_nf

/-- C9 example results: three documents, one carrying an error. -/
def c9Results : List ProcResult :=
  [ ⟨"1", "a.pdf", none, [], 1, 1⟩
  , ⟨"2", "b.pdf", some "conversion failed", [], 0, 0⟩
  , ⟨"3", "c.pdf", none, [], 1, 1⟩ ]

/-- C9 witness: for 3 documents with 1 error the formula gives
75 + 6 − 15 = 66. -/
theorem fallbackConfidence_witness : calculateFallbackConfidence c9Results = 66 := by
  have h := fallbackConfidence_formula c9Results (by simp [c9Results])
    (by
      intro r hr
      simp only [c9Results, List.mem_cons, List.not_mem_nil, or_false] at hr
      rcases hr with rfl | rfl | rfl <;> simp)
  rw [h]
  decide

/-!
## Claim C6 — summary average confidence
-/

/-- The per-record confidence the amended claim describes: a truthy numeric
confidence passes through, everything falsy (absent, zero, `NaN`) becomes
80.  (Stated from the claim for comparison with the code's fold.) -/
def specConfidence (r : ProcResult) : ℚ :=
  match jsGet (.obj r.extractedData) "confidence" with
  | .num (some q) => if q = 0 then 80 else q
  | _ => 80

/-- Typing assumption for the average: each record's confidence property is
absent or a number (a truthy non-number would make the source's `+`
concatenate strings instead of adding). -/
def ConfNumeric (r : ProcResult) : Prop :=
  match jsGet (.obj r.extractedData) "confidence" with
  | .num _ => True
  | .undef => True
  | _ => False

/-- C6 (amended): `averageConfidence` is the rounded mean of the per-record
confidences with every *falsy* confidence — absent, but also a present `0`
— replaced by 80; and for the empty sequence the division by zero is *not*
guarded: the result is `NaN` (modelled `none`), not 0, though no exception
is thrown. -/
theorem averageConfidence_formula (results : List ProcResult)
    (h : ∀ r ∈ results, ConfNumeric r) :
    averageConfidence results =
      if results.length = 0 then none
      else some (jsRound ((results.map specConfidence).sum / results.length)) := by
  have hsum : summaryConfSum results = (results.map specConfidence).sum := by
    unfold summaryConfSum
    congr 1
    apply List.map_congr_left
    intro r hr
    have hc := h r hr
    unfold ConfNumeric at hc
    unfold confEntry specConfidence
    cases hv : jsGet (.obj r.extractedData) "confidence" with
    | num n =>
      cases n with
      | none => simp [jsOr, jsTruthy, numOf]
      | some q =>
        by_cases hq : q = 0
        · subst hq; simp [jsOr, jsTruthy, numOf]
        · simp [jsOr, jsTruthy, hq, numOf]
    | undef => simp [jsOr, jsTruthy, numOf]
    | null => rw [hv] at hc; exact absurd hc (by simp)
    | bool b => rw [hv] at hc; exact absurd hc (by simp)
    | str s => rw [hv] at hc; exact absurd hc (by simp)
    | arr xs => rw [hv] at hc; exact absurd hc (by simp)
    | obj fs => rw [hv] at hc; exact absurd hc (by simp)
  unfold averageConfidence
  rw [hsum]

/-- C6 counterexample: for the empty sequence the summary average is `NaN`
(`none`), not the claimed 0. -/
theorem averageConfidence_empty_nan :
    averageConfidence [] = none ∧ (none : Option ℤ) ≠ some 0 :=
  ⟨rfl, by decide⟩

/-- A record whose extracted data carries no confidence property. -/
def c6Record : ProcResult := ⟨"1", "a.pdf", none, [("documentType", .str "unknown")], 1, 1⟩

/-- C6 witness: the formula applied to one confidence-less record gives the
default 80. -/
theorem averageConfidence_witness : averageConfidence [c6Record] = some 80 := by
  have h := averageConfidence_formula [c6Record]
    (by
      intro r hr
      simp only [List.mem_singleton] at hr
      subst hr
      show ConfNumeric c6Record
      simp [ConfNumeric, c6Record, jsGet])
  rw [h]
  have hs : specConfidence c6Record = 80 := rfl
  simp only [List.map_cons, List.map_nil, hs, List.sum_cons, List.sum_nil,
    List.length_cons, List.length_nil]
  decide


/-!
## Claim C5 — sanitizer idempotence
-/

theorem jsMaxQ_some_ge {a : ℚ} {t : Option ℚ} {q : ℚ} (h : jsMaxQ a t = some q) :
    a ≤ q := by
  cases t with
  | none => cases h
  | some u =>
    simp only [jsMaxQ, Option.some_inj] at h
    subst h
    exact le_max_left _ _

theorem jsMaxQ_jsMinQ_some_bounds {a b : ℚ} {t : Option ℚ} {q : ℚ}
    (h : jsMaxQ a (jsMinQ b t) = some q) (hab : a ≤ b) : a ≤ q ∧ q ≤ b := by
  cases t with
  | none => cases h
  | some u =>
    simp only [jsMinQ, jsMaxQ, Option.some_inj] at h
    subst h
    exact ⟨le_max_left _ _, max_le hab (min_le_left _ _)⟩

/-- What a second sanitization pass does to an abstract record `r` whose
fields satisfy the invariants every first-pass output has: all fields
except `score`, `maxCreditLimit` and `interestRate` round-trip; `score` is
reset to 650 (read from the absent `creditScore` key), and the two other
numeric fields fall back to their defaults exactly when falsy. -/
theorem sanitize_of_toObj (r : CreditRec) (now2 : String)
    (hrat : r.rating ∈ validRatings)
    (hrisk : r.riskLevel ∈ validRiskLevels)
    (hrec : trimChars r.recommendation.data = r.recommendation.data ∧ r.recommendation ≠ "")
    (hkf : 1 ≤ r.keyFactors.length ∧ r.keyFactors.length ≤ 6 ∧
      ∀ s ∈ r.keyFactors, trimChars s.data = s.data ∧ s ≠ "")
    (his : 1 ≤ r.improvementSuggestions.length ∧ r.improvementSuggestions.length ≤ 6 ∧
      ∀ s ∈ r.improvementSuggestions, trimChars s.data = s.data ∧ s ≠ "")
    (hres : trimChars r.reasoning.data = r.reasoning.data ∧ r.reasoning ≠ "")
    (ham : jsTruthy r.analysisModel = true)
    (hga : jsTruthy r.generatedAt = true)
    (hml : ∀ q, r.maxCreditLimit = some q → 0 ≤ q)
    (hir : ∀ q, r.interestRate = some q → 0 ≤ q ∧ q ≤ 50) :
    sanitizeCreditRecommendation (CreditRec.toObj r) now2 =
      { score := some 650
        rating := r.rating
        riskLevel := r.riskLevel
        recommendation := r.recommendation
        keyFactors := r.keyFactors
        improvementSuggestions := r.improvementSuggestions
        maxCreditLimit :=
          match r.maxCreditLimit with
          | some q => if q = 0 then some 10000 else some q
          | none => some 10000
        interestRate :=
          match r.interestRate with
          | some q => if q = 0 then some 15 else some q
          | none => some 15
        reasoning := r.reasoning
        analysisModel := r.analysisModel
        generatedAt := r.generatedAt } := by
  have hscore : jsGet (.obj (CreditRec.toObj r)) "creditScore" = .undef := rfl
  have hrating : jsGet (.obj (CreditRec.toObj r)) "rating" = .str r.rating := rfl
  have hriskg : jsGet (.obj (CreditRec.toObj r)) "riskLevel" = .str r.riskLevel := rfl
  have hrecg : jsGet (.obj (CreditRec.toObj r)) "recommendation" = .str r.recommendation := rfl
  have hkfg : jsGet (.obj (CreditRec.toObj r)) "keyFactors"
      = .arr (r.keyFactors.map .str) := rfl
  have hisg : jsGet (.obj (CreditRec.toObj r)) "improvementSuggestions"
      = .arr (r.improvementSuggestions.map .str) := rfl
  have hmlg : jsGet (.obj (CreditRec.toObj r)) "maxCreditLimit" = .num r.maxCreditLimit := rfl
  have hirg : jsGet (.obj (CreditRec.toObj r)) "interestRate" = .num r.interestRate := rfl
  have hresg : jsGet (.obj (CreditRec.toObj r)) "reasoning" = .str r.reasoning := rfl
  have hamg : jsGet (.obj (CreditRec.toObj r)) "analysisModel" = r.analysisModel := rfl
  have hgag : jsGet (.obj (CreditRec.toObj r)) "generatedAt" = r.generatedAt := rfl
  apply CreditRec.ext
  · -- score
    show jsMaxQ 300 (jsMinQ 850 (jsToNumber (jsOr
      (jsGet (.obj (CreditRec.toObj r)) "creditScore") (.num (some 650))))) = some 650
    rw [hscore]
    show jsMaxQ 300 (jsMinQ 850 (jsToNumber (.num (some 650)))) = some 650
    simp only [jsToNumber, jsMinQ, jsMaxQ]
    norm_num
  · -- rating
    show (validateRating (jsGet (.obj (CreditRec.toObj r)) "rating")).getD "Fair" = r.rating
    rw [hrating]
    simp [validateRating, hrat]
  · -- riskLevel
    show (validateRiskLevel (jsGet (.obj (CreditRec.toObj r)) "riskLevel")).getD "Medium"
      = r.riskLevel
    rw [hriskg]
    simp [validateRiskLevel, hrisk]
  · -- recommendation
    show sanitizeText (jsGet (.obj (CreditRec.toObj r)) "recommendation")
      "No recommendation available" = r.recommendation
    rw [hrecg]
    exact sanitizeText_fixed r.recommendation _ hrec.1 hrec.2
  · -- keyFactors
    show sanitizeStringArray (jsGet (.obj (CreditRec.toObj r)) "keyFactors")
      "Positive factor identified" = r.keyFactors
    rw [hkfg]
    exact sanitizeStringArray_fixed r.keyFactors _ hkf.1 hkf.2.1 hkf.2.2
  · -- improvementSuggestions
    show sanitizeStringArray (jsGet (.obj (CreditRec.toObj r)) "improvementSuggestions")
      "Consider improvement" = r.improvementSuggestions
    rw [hisg]
    exact sanitizeStringArray_fixed r.improvementSuggestions _ his.1 his.2.1 his.2.2
  · -- maxCreditLimit
    show jsMaxQ 0 (jsToNumber (jsOr
        (jsGet (.obj (CreditRec.toObj r)) "maxCreditLimit") (.num (some 10000))))
      = match r.maxCreditLimit with
        | some q => if q = 0 then some 10000 else some q
        | none => some 10000
    rw [hmlg]
    cases hq : r.maxCreditLimit with
    | none =>
      show jsMaxQ 0 (jsToNumber (jsOr (.num none) (.num (some 10000)))) = some 10000
      simp only [jsOr, jsTruthy, Bool.false_eq_true, if_false, jsToNumber, jsMaxQ]
      norm_num
    | some q =>
      have h0 : 0 ≤ q := hml q hq
      by_cases hz : q = 0
      · subst hz
        show jsMaxQ 0 (jsToNumber (jsOr (.num (some 0)) (.num (some 10000))))
          = if (0 : ℚ) = 0 then some 10000 else some 0
        rw [if_pos rfl]
        simp only [jsOr, jsTruthy, jsToNumber, jsMaxQ]
        norm_num
      · show jsMaxQ 0 (jsToNumber (jsOr (.num (some q)) (.num (some 10000))))
          = if q = 0 then some 10000 else some q
        rw [if_neg hz]
        have ht : jsTruthy (.num (some q)) = true := by simp [jsTruthy, hz]
        simp only [jsOr, if_pos ht, jsToNumber, jsMaxQ]
        rw [max_eq_right h0]
  · -- interestRate
    show jsMaxQ 0 (jsMinQ 50 (jsToNumber (jsOr
        (jsGet (.obj (CreditRec.toObj r)) "interestRate") (.num (some 15)))))
      = match r.interestRate with
        | some q => if q = 0 then some 15 else some q
        | none => some 15
    rw [hirg]
    cases hq : r.interestRate with
    | none =>
      show jsMaxQ 0 (jsMinQ 50 (jsToNumber (jsOr (.num none) (.num (some 15))))) = some 15
      simp only [jsOr, jsTruthy, Bool.false_eq_true, if_false, jsToNumber, jsMinQ, jsMaxQ]
      norm_num
    | some q =>
      have hb := hir q hq
      by_cases hz : q = 0
      · subst hz
        show jsMaxQ 0 (jsMinQ 50 (jsToNumber (jsOr (.num (some 0)) (.num (some 15)))))
          = if (0 : ℚ) = 0 then some 15 else some 0
        rw [if_pos rfl]
        simp only [jsOr, jsTruthy, jsToNumber, jsMinQ, jsMaxQ]
        norm_num
      · show jsMaxQ 0 (jsMinQ 50 (jsToNumber (jsOr (.num (some q)) (.num (some 15)))))
          = if q = 0 then some 15 else some q
        rw [if_neg hz]
        have ht : jsTruthy (.num (some q)) = true := by simp [jsTruthy, hz]
        simp only [jsOr, if_pos ht, jsToNumber, jsMinQ, jsMaxQ]
        rw [min_eq_right hb.2, max_eq_right hb.1]
  · -- reasoning
    show sanitizeText (jsGet (.obj (CreditRec.toObj r)) "reasoning")
      "Analysis completed" = r.reasoning
    rw [hresg]
    exact sanitizeText_fixed r.reasoning _ hres.1 hres.2
  · -- analysisModel
    show jsOr (jsGet (.obj (CreditRec.toObj r)) "analysisModel") (.str "deepseek-r1:8b")
      = r.analysisModel
    rw [hamg]
    simp only [jsOr, if_pos ham]
  · -- generatedAt
    show jsOr (jsGet (.obj (CreditRec.toObj r)) "generatedAt") (.str now2) = r.generatedAt
    rw [hgag]
    simp only [jsOr, if_pos hga]

/-- C5 counterexample: sanitizing the sanitizer's own output is not the
identity — the first pass reads `creditScore` 700 and exposes it under the
distinct key `score`; the second pass finds no `creditScore` key and resets
the score to the default 650. -/
theorem sanitize_not_idempotent :
    sanitizeCreditRecommendation
        (CreditRec.toObj (sanitizeCreditRecommendation
          [("creditScore", .num (some 700))] "T")) "T"
      ≠ sanitizeCreditRecommendation [("creditScore", .num (some 700))] "T" := by
  intro h
  have hs := congrArg CreditRec.score h
  have h1 : (sanitizeCreditRecommendation
      (CreditRec.toObj (sanitizeCreditRecommendation
        [("creditScore", .num (some 700))] "T")) "T").score = some 650 := rfl
  have h2 : (sanitizeCreditRecommendation
      [("creditScore", .num (some 700))] "T").score = some 700 := rfl
  rw [h1, h2] at hs
  exact absurd hs (by decide)

/-- C5 (amended): the sanitizer is *not* idempotent.  A second pass over a
first pass's output (first timestamp non-empty) reproduces every field
except the numeric ones read through `||` defaults: `score` is always reset
to 650 — the input key `creditScore` differs from the output key `score` —
and `maxCreditLimit` / `interestRate` are replaced by their defaults
exactly when the first pass produced the falsy 0 (or `NaN`). -/
theorem sanitize_second_pass (x : JSObj) (now now2 : String) (hnow : now ≠ "") :
    sanitizeCreditRecommendation
        (CreditRec.toObj (sanitizeCreditRecommendation x now)) now2 =
      { sanitizeCreditRecommendation x now with
        score := some 650
        maxCreditLimit :=
          match (sanitizeCreditRecommendation x now).maxCreditLimit with
          | some q => if q = 0 then some 10000 else some q
          | none => some 10000
        interestRate :=
          match (sanitizeCreditRecommendation x now).interestRate with
          | some q => if q = 0 then some 15 else some q
          | none => some 15 } := by
  exact sanitize_of_toObj (sanitizeCreditRecommendation x now) now2
    (sanitize_rating_mem x now)
    (sanitize_riskLevel_mem x now)
    (by
      rw [show (sanitizeCreditRecommendation x now).recommendation
        = sanitizeText (jsGet (.obj x) "recommendation") "No recommendation available" from rfl]
      exact sanitizeText_spec _ _ (by decide) (by decide))
    (by
      rw [show (sanitizeCreditRecommendation x now).keyFactors
        = sanitizeStringArray (jsGet (.obj x) "keyFactors") "Positive factor identified" from rfl]
      exact sanitizeStringArray_spec _ _ (by decide) (by decide))
    (by
      rw [show (sanitizeCreditRecommendation x now).improvementSuggestions
        = sanitizeStringArray (jsGet (.obj x) "improvementSuggestions")
          "Consider improvement" from rfl]
      exact sanitizeStringArray_spec _ _ (by decide) (by decide))
    (by
      rw [show (sanitizeCreditRecommendation x now).reasoning
        = sanitizeText (jsGet (.obj x) "reasoning") "Analysis completed" from rfl]
      exact sanitizeText_spec _ _ (by decide) (by decide))
    (by
      rw [show (sanitizeCreditRecommendation x now).analysisModel
        = jsOr (jsGet (.obj x) "analysisModel") (.str "deepseek-r1:8b") from rfl]
      exact jsOr_truthy _ _ (by decide))
    (by
      rw [show (sanitizeCreditRecommendation x now).generatedAt
        = jsOr (jsGet (.obj x) "generatedAt") (.str now) from rfl]
      exact jsOr_truthy _ _ (by simp [jsTruthy, hnow]))
    (by
      intro q hq
      have e : (sanitizeCreditRecommendation x now).maxCreditLimit
          = jsMaxQ 0 (jsToNumber (jsOr (jsGet (.obj x) "maxCreditLimit")
            (.num (some 10000)))) := rfl
      exact jsMaxQ_some_ge (e ▸ hq))
    (by
      intro q hq
      have e : (sanitizeCreditRecommendation x now).interestRate
          = jsMaxQ 0 (jsMinQ 50 (jsToNumber (jsOr (jsGet (.obj x) "interestRate")
            (.num (some 15))))) := rfl
      exact jsMaxQ_jsMinQ_some_bounds (e ▸ hq) (by norm_num))

/-- C5 witness: the second pass over the sanitized empty object resets the
score to 650 and keeps the rating. -/
theorem sanitize_second_pass_witness :
    sanitizeCreditRecommendation
        (CreditRec.toObj (sanitizeCreditRecommendation [] "T")) "U" =
      { sanitizeCreditRecommendation [] "T" with
        score := some 650
        maxCreditLimit :=
          match (sanitizeCreditRecommendation [] "T").maxCreditLimit with
          | some q => if q = 0 then some 10000 else some q
          | none => some 10000
        interestRate :=
          match (sanitizeCreditRecommendation [] "T").interestRate with
          | some q => if q = 0 then some 15 else some q
          | none => some 15 } :=
  sanitize_second_pass [] "T" "U" (by decide)

/-!
## Claim C1 — fallback scorer formula and band lookups
-/

/-- The five rating bands as the claim states them. -/
def claimRating (score : ℤ) : String :=
  if score ≥ 800 then "Excellent"
  else if score ≥ 740 then "Good"
  else if score ≥ 670 then "Fair"
  else if score ≥ 580 then "Poor"
  else "Very Poor"

/-- The five credit-limit bands as the claim states them. -/
def claimLimit (score : ℤ) : ℤ :=
  if score ≥ 800 then 50000
  else if score ≥ 740 then 25000
  else if score ≥ 670 then 15000
  else if score ≥ 580 then 8000
  else 3000

/-- The five interest-rate bands as the claim states them. -/
def claimRate (score : ℤ) : ℚ :=
  if score ≥ 800 then 6.5
  else if score ≥ 740 then 9.2
  else if score ≥ 670 then 13.5
  else if score ≥ 580 then 18.9
  else 24.9

/-- The tiered adjustment `a` and risk level of the claim, over the
filtered financial-metric objects. -/
def claimAdjustment (fd : List JSVal) : ℤ × String :=
  match fd with
  | [] => (0, "Medium")
  | _ :: _ =>
    if avgIncome fd > 30000 ∧ avgAssets fd > 75000 then (100, "Low")
    else if avgIncome fd > 15000 ∧ avgAssets fd > 25000 then (50, "Medium")
    else (-50, "High")

theorem adjusted_eq_claim (fd : List JSVal) :
    (if fd.length > 0 then
      (if avgIncome fd > 30000 ∧ avgAssets fd > 75000 then ((650 : ℤ) + 100, "Low")
       else if avgIncome fd > 15000 ∧ avgAssets fd > 25000 then (650 + 50, "Medium")
       else (650 - 50, "High"))
     else ((650 : ℤ), "Medium"))
    = (650 + (claimAdjustment fd).1, (claimAdjustment fd).2) := by
  cases fd with
  | nil => simp [claimAdjustment]
  | cons a t =>
    rw [if_pos (by simp)]
    simp only [claimAdjustment]
    by_cases h1 : avgIncome (a :: t) > 30000 ∧ avgAssets (a :: t) > 75000
    · rw [if_pos h1, if_pos h1]
    · rw [if_neg h1, if_neg h1]
      by_cases h2 : avgIncome (a :: t) > 15000 ∧ avgAssets (a :: t) > 25000
      · rw [if_pos h2, if_pos h2]
      · rw [if_neg h2, if_neg h2]
        have : (650 : ℤ) - 50 = 650 + -50 := by ring
        rw [this]

theorem totalRiskFactors_eq (results : List ProcResult) (rfs : ProcResult → List String)
    (hrf : ∀ r ∈ results,
      jsGet (.obj r.extractedData) "riskFactors" = .arr ((rfs r).map .str)) :
    totalRiskFactors results = (results.map fun r => (rfs r).length).sum := by
  induction results with
  | nil => rfl
  | cons r t ih =>
    simp only [totalRiskFactors, List.map_cons, List.sum_cons] at ih ⊢
    rw [hrf r (by simp), ih (fun s hs => hrf s (by simp [hs]))]
    simp [rfLength]

/-- C1 (confirmed): the fallback scorer computes
`score = clamp(650 + a − 15·R, 300, 850)` where `R` is the total count of
risk-factor strings across all records and `a` is the tiered adjustment
(+100/Low above 30000/75000; +50/Medium above 15000/25000; −50/High
otherwise; 0/Medium when no record carries financial metrics), and rating,
maxCreditLimit and interestRate come from the five score bands
≥800/≥740/≥670/≥580/below with the claimed values. -/
theorem fallback_score_formula (results : List ProcResult)
    (rfs : ProcResult → List String)
    (hrf : ∀ r ∈ results,
      jsGet (.obj r.extractedData) "riskFactors" = .arr ((rfs r).map .str)) :
    (generateFallbackRecommendation results).score
      = max 300 (min 850 (650 + (claimAdjustment (financialData results)).1
          - 15 * (((results.map fun r => (rfs r).length).sum : ℕ) : ℤ))) ∧
    (generateFallbackRecommendation results).riskLevel
      = (claimAdjustment (financialData results)).2 ∧
    (generateFallbackRecommendation results).rating
      = claimRating (generateFallbackRecommendation results).score ∧
    (generateFallbackRecommendation results).maxCreditLimit
      = claimLimit (generateFallbackRecommendation results).score ∧
    (generateFallbackRecommendation results).interestRate
      = claimRate (generateFallbackRecommendation results).score := by
  have hR := totalRiskFactors_eq results rfs hrf
  refine ⟨?_, ?_, rfl, rfl, rfl⟩
  · show max 300 (min 850 ((if (financialData results).length > 0 then
        (if avgIncome (financialData results) > 30000 ∧ avgAssets (financialData results) > 75000
          then ((650 : ℤ) + 100, "Low")
         else if avgIncome (financialData results) > 15000
            ∧ avgAssets (financialData results) > 25000
          then (650 + 50, "Medium")
         else (650 - 50, "High"))
        else ((650 : ℤ), "Medium")).1 - (totalRiskFactors results : ℤ) * 15))
      = _
    rw [adjusted_eq_claim, hR]
    have harith : (650 + (claimAdjustment (financialData results)).1)
        - (((results.map fun r => (rfs r).length).sum : ℕ) : ℤ) * 15
      = 650 + (claimAdjustment (financialData results)).1
        - 15 * (((results.map fun r => (rfs r).length).sum : ℕ) : ℤ) := by ring
    rw [harith]
  · show (if (financialData results).length > 0 then
        (if avgIncome (financialData results) > 30000 ∧ avgAssets (financialData results) > 75000
          then ((650 : ℤ) + 100, "Low")
         else if avgIncome (financialData results) > 15000
            ∧ avgAssets (financialData results) > 25000
          then (650 + 50, "Medium")
         else (650 - 50, "High"))
        else ((650 : ℤ), "Medium")).2
      = _
    rw [adjusted_eq_claim]

/-- C1 example: one financial record with income 40000, assets 90000 and no
risk factors. -/
def c1Record : ProcResult :=
  ⟨"1", "financial.pdf", none,
    [ ("documentType", .str "financial")
    , ("riskFactors", .arr [])
    , ("financialMetrics", .obj
        [("monthlyIncome", .num (some 40000)), ("totalAssets", .num (some 90000))]) ], 1, 1⟩

/-- C1 witness: income 40000 / assets 90000 / zero risk factors gives
650 + 100 = 750, riskLevel Low. -/
theorem fallback_score_formula_witness :
    (generateFallbackRecommendation [c1Record]).score = 750 ∧
    (generateFallbackRecommendation [c1Record]).riskLevel = "Low" := by
  have h := fallback_score_formula [c1Record] (fun _ => [])
    (by
      intro r hr
      simp only [List.mem_singleton] at hr
      subst hr
      rfl)
  refine ⟨?_, ?_⟩
  · rw [h.1]; decide
  · rw [h.2.1]; decide

/-!
## Claim C4 — multi-image financial-metric averaging
-/

theorem foldl_lookup_none (g : String) (fs : JSObj) (acc : Option JSVal)
    (h : ∀ p ∈ fs, p.1 ≠ g) :
    fs.foldl (fun a p => if p.1 = g then some p.2 else a) acc = acc := by
  induction fs generalizing acc with
  | nil => rfl
  | cons p t ih =>
    rw [List.foldl_cons, if_neg (h p (by simp)), ih acc (fun q hq => h q (by simp [hq]))]

theorem jsGet_obj_cons_hit (k : String) (v : JSVal) (fs : JSObj) (g : String)
    (hk : k = g) (hrest : ∀ p ∈ fs, p.1 ≠ g) :
    jsGet (.obj ((k, v) :: fs)) g = v := by
  simp only [jsGet, List.foldl_cons]
  show (fs.foldl _ (if k = g then some v else none)).getD _ = v
  rw [if_pos hk, foldl_lookup_none g fs _ hrest]
  rfl

theorem jsGet_obj_cons_ne (k : String) (v : JSVal) (fs : JSObj) (g : String)
    (h : k ≠ g) : jsGet (.obj ((k, v) :: fs)) g = jsGet (.obj fs) g := by
  simp only [jsGet, List.foldl_cons]
  show (fs.foldl _ (if k = g then some v else none)).getD _ = _
  rw [if_neg h]

/-- Lookup in an object built by keeping, in key order, the defined entries
of `F` — the shape of `extractFinancialMetrics` and
`combineFinancialMetrics`. -/
theorem jsGet_keyed (keys : List String) (F : String → Option ℚ) (g : String)
    (hnd : keys.Nodup) :
    jsGet (.obj (keys.filterMap fun f => (F f).map fun q => (f, JSVal.num (some q)))) g
      = if g ∈ keys then ((F g).map fun q => JSVal.num (some q)).getD .undef
        else .undef := by
  induction keys with
  | nil => simp [jsGet]
  | cons k ks ih =>
    rw [List.nodup_cons] at hnd
    by_cases hgk : g = k
    · subst hgk
      rw [if_pos (by simp)]
      cases hFg : F g with
      | none =>
        rw [List.filterMap_cons_none (by rw [hFg]; rfl), ih hnd.2, if_neg hnd.1]
        rfl
      | some q =>
        rw [List.filterMap_cons_some (by rw [hFg]; rfl)]
        rw [jsGet_obj_cons_hit _ _ _ _ rfl
          (by
            intro p hp
            obtain ⟨f, hfks, hfp⟩ := List.mem_filterMap.mp hp
            cases hF : F f with
            | none => rw [hF] at hfp; cases hfp
            | some u =>
              rw [hF] at hfp
              cases hfp
              intro hcon
              apply hnd.1
              have hfg : f = g := by simpa using hcon
              rwa [hfg] at hfks)]
        rfl
    · have hmem : g ∈ k :: ks ↔ g ∈ ks := by simp [hgk]
      cases hFk : F k with
      | none =>
        rw [List.filterMap_cons_none (by rw [hFk]; rfl), ih hnd.2,
          if_congr hmem rfl rfl]
      | some q =>
        rw [List.filterMap_cons_some (by rw [hFk]; rfl),
          jsGet_obj_cons_ne _ _ _ _ (fun h => hgk h.symm), ih hnd.2,
          if_congr hmem rfl rfl]

theorem extract_none_field {d : JSObj} (hE : extractFinancialMetrics d = none) :
    ∀ f ∈ financialFields, truthyNumericAt d f = none := by
  intro f hf
  simp only [extractFinancialMetrics] at hE
  by_cases hlen : (financialFields.filterMap fun f2 =>
      (truthyNumericAt d f2).map fun q => (f2, JSVal.num (some q))).length > 0
  · rw [if_pos hlen] at hE
    cases hE
  · have hnil : (financialFields.filterMap fun f2 =>
        (truthyNumericAt d f2).map fun q => (f2, JSVal.num (some q))) = [] := by
      cases h : (financialFields.filterMap fun f2 =>
          (truthyNumericAt d f2).map fun q => (f2, JSVal.num (some q))) with
      | nil => rfl
      | cons a l => rw [h] at hlen; simp at hlen
    have hmap := (List.filterMap_eq_nil_iff.mp hnil) f hf
    cases h3 : truthyNumericAt d f with
    | none => rfl
    | some q => rw [h3] at hmap; cases hmap

theorem extract_some_field {d : JSObj} {m : JSObj} (hE : extractFinancialMetrics d = some m) :
    ∀ f ∈ financialFields,
      jsGet (.obj m) f = ((truthyNumericAt d f).map fun q => JSVal.num (some q)).getD .undef := by
  intro f hf
  simp only [extractFinancialMetrics] at hE
  by_cases hlen : (financialFields.filterMap fun f2 =>
      (truthyNumericAt d f2).map fun q => (f2, JSVal.num (some q))).length > 0
  · rw [if_pos hlen] at hE
    cases hE
    rw [jsGet_keyed _ _ _ (by decide), if_pos hf]
  · rw [if_neg hlen] at hE
    cases hE

theorem metric_values_eq (facts : List JSObj) (f : String) (hf : f ∈ financialFields) :
    ((((facts.map extractFinancialMetrics).filterMap id).map
        fun m => jsGet (.obj m) f).filter fun v => !JSVal.beq v .undef)
      = (facts.filterMap fun d => truthyNumericAt d f).map fun q => JSVal.num (some q) := by
  induction facts with
  | nil => rfl
  | cons d rest ih =>
    simp only [List.map_cons]
    cases hE : extractFinancialMetrics d with
    | none =>
      rw [List.filterMap_cons_none (show id (none : Option JSObj) = none from rfl),
        List.filterMap_cons, extract_none_field hE f hf]
      exact ih
    | some m =>
      rw [List.filterMap_cons_some (show id (some m) = some m from rfl),
        List.map_cons, List.filter_cons]
      have hg := extract_some_field hE f hf
      cases hT : truthyNumericAt d f with
      | none =>
        rw [hT] at hg
        rw [List.filterMap_cons, hT]
        have hgu : jsGet (.obj m) f = .undef := hg
        rw [hgu]
        simp only [JSVal.beq, Bool.not_true, Bool.false_eq_true, if_false]
        exact ih
      | some q =>
        rw [hT] at hg
        have hgq : jsGet (.obj m) f = .num (some q) := hg
        rw [List.filterMap_cons, hT, hgq]
        rw [if_pos (by simp [JSVal.beq])]
        show JSVal.num (some q) :: _ = JSVal.num (some q) :: _
        exact congrArg (List.cons (JSVal.num (some q))) ih

/-- The per-field mean the claim describes: over exactly the facts that
supplied a truthy numeric value for the field (stated from the claim for
comparison with `combineFinancialMetrics`). -/
def specFieldMean (facts : List JSObj) (f : String) : JSVal :=
  let vs := facts.filterMap fun d => truthyNumericAt d f
  if vs = [] then .undef else .num (some (vs.sum / vs.length))

theorem fieldMean_eq_spec (facts : List JSObj) (f : String) (hf : f ∈ financialFields) :
    ((fieldMean ((facts.map extractFinancialMetrics).filterMap id) f).map
        fun q => JSVal.num (some q)).getD .undef
      = specFieldMean facts f := by
  have hlist := metric_values_eq facts f hf
  simp only [fieldMean, specFieldMean]
  rw [hlist]
  cases hv : facts.filterMap fun d => truthyNumericAt d f with
  | nil => rfl
  | cons a l =>
    have hnum : (((a :: l).map fun q => JSVal.num (some q)).map numOf) = a :: l := by
      rw [List.map_map]
      have hco : (numOf ∘ fun q => JSVal.num (some q)) = id := funext fun q => rfl
      rw [hco, List.map_id]
    rw [if_pos (by simp), if_neg (by simp)]
    rw [hnum]
    simp only [List.length_map]
    rfl

theorem combineFields_subset : ∀ f ∈ combineFields, f ∈ financialFields := by decide

/-- The multi-image arm of `combineExtractedData`, with the gathered risk
factors supplied. -/
theorem combineExtractedData_multi (d1 d2 : JSObj) (rest : List JSObj) (rf : List JSVal)
    (t : String) (hrf : gatherRiskFactors (d1 :: d2 :: rest) = .ok rf) :
    combineExtractedData (d1 :: d2 :: rest) t = .ok
      [ ("documentType", .str t)
      , ("keyInformation", .obj ((d1 :: d2 :: rest).foldl jsAssign []))
      , ("riskFactors", .arr (dedupFirst rf))
      , ("financialMetrics", .obj (
          if (((d1 :: d2 :: rest).map extractFinancialMetrics).filterMap id).length > 0
          then combineFinancialMetrics
            (((d1 :: d2 :: rest).map extractFinancialMetrics).filterMap id)
          else [])) ] := by
  have hbind : combineExtractedData (d1 :: d2 :: rest) t
      = (gatherRiskFactors (d1 :: d2 :: rest)).bind (fun rf2 => Except.ok
        [ ("documentType", .str t)
        , ("keyInformation", .obj ((d1 :: d2 :: rest).foldl jsAssign []))
        , ("riskFactors", .arr (dedupFirst rf2))
        , ("financialMetrics", .obj (
            if (((d1 :: d2 :: rest).map extractFinancialMetrics).filterMap id).length > 0
            then combineFinancialMetrics
              (((d1 :: d2 :: rest).map extractFinancialMetrics).filterMap id)
            else [])) ]) := rfl
  rw [hbind, hrf]
  rfl

/-- C4 counterexample: two facts each supplying `totalAssets` (1000 and
3000) combine to a `financialMetrics` with *no* `totalAssets` field at all
— `combineFinancialMetrics` only averages five of the eight recognized
fields — where the claim demands the mean 2000. -/
theorem combine_totalAssets_dropped :
    (combineExtractedData
        [ [("totalAssets", .num (some 1000))], [("totalAssets", .num (some 3000))] ]
        "financial").map
      (fun c => jsGet (jsGet (.obj c) "financialMetrics") "totalAssets")
      = .ok .undef
    ∧ JSVal.undef ≠ .num (some 2000) :=
  ⟨rfl, fun h => JSVal.noConfusion h⟩

/-- C4 (amended): for two or more extracted facts (whose risk-factor
spreads do not throw), the combined record's `financialMetrics` assigns to
each of the *five* averaged fields — accountBalance, monthlyIncome,
monthlyExpenses, annualRevenue, netProfit — the arithmetic mean of that
field over exactly the images that supplied a *truthy* numeric value for
it (zero and `NaN` do not count as supplied), omitting fields with no
contributing image; the remaining three recognized fields — totalAssets,
totalLiabilities, cashFlow — are always omitted from the combination. -/
theorem combine_metrics_means (facts : List JSObj) (t : String)
    (h2 : 2 ≤ facts.length) (hg : ∃ rf, gatherRiskFactors facts = Except.ok rf) :
    ∃ c, combineExtractedData facts t = .ok c ∧
      (∀ f ∈ combineFields,
        jsGet (jsGet (.obj c) "financialMetrics") f = specFieldMean facts f) ∧
      (∀ f, f = "totalAssets" ∨ f = "totalLiabilities" ∨ f = "cashFlow" →
        jsGet (jsGet (.obj c) "financialMetrics") f = .undef) := by
  obtain ⟨rf, hrf⟩ := hg
  cases facts with
  | nil => simp at h2
  | cons d1 rest1 =>
    cases rest1 with
    | nil => simp at h2
    | cons d2 rest =>
      refine ⟨_, combineExtractedData_multi d1 d2 rest rf t hrf, ?_, ?_⟩
      · intro f hfc
        have hff : f ∈ financialFields := combineFields_subset f hfc
        have hfm : jsGet (.obj
            [ ("documentType", JSVal.str t)
            , ("keyInformation", .obj ((d1 :: d2 :: rest).foldl jsAssign []))
            , ("riskFactors", .arr (dedupFirst rf))
            , ("financialMetrics", .obj (
                if (((d1 :: d2 :: rest).map extractFinancialMetrics).filterMap id).length > 0
                then combineFinancialMetrics
                  (((d1 :: d2 :: rest).map extractFinancialMetrics).filterMap id)
                else [])) ]) "financialMetrics"
          = .obj (if (((d1 :: d2 :: rest).map extractFinancialMetrics).filterMap id).length > 0
              then combineFinancialMetrics
                (((d1 :: d2 :: rest).map extractFinancialMetrics).filterMap id)
              else []) := rfl
        rw [hfm]
        by_cases hlen : (((d1 :: d2 :: rest).map extractFinancialMetrics).filterMap id).length > 0
        · rw [if_pos hlen]
          show jsGet (.obj (combineFinancialMetrics _)) f = _
          rw [show combineFinancialMetrics
              (((d1 :: d2 :: rest).map extractFinancialMetrics).filterMap id)
            = combineFields.filterMap (fun f2 =>
                (fieldMean (((d1 :: d2 :: rest).map extractFinancialMetrics).filterMap id) f2).map
                  fun q => (f2, JSVal.num (some q))) from rfl]
          rw [jsGet_keyed _ _ _ (by decide), if_pos hfc]
          exact fieldMean_eq_spec (d1 :: d2 :: rest) f hff
        · rw [if_neg hlen]
          have hnil : (((d1 :: d2 :: rest).map extractFinancialMetrics).filterMap id) = [] := by
            cases hq : (((d1 :: d2 :: rest).map extractFinancialMetrics).filterMap id) with
            | nil => rfl
            | cons a l => rw [hq] at hlen; simp at hlen
          have hvs : ((d1 :: d2 :: rest).filterMap fun d => truthyNumericAt d f) = [] := by
            rw [List.filterMap_eq_nil_iff]
            intro d hd
            have hE : extractFinancialMetrics d = none := by
              have := List.filterMap_eq_nil_iff.mp hnil (extractFinancialMetrics d)
                (List.mem_map_of_mem _ hd)
              cases hx : extractFinancialMetrics d with
              | none => rfl
              | some m =>
                rw [hx] at this
                simp at this
            exact extract_none_field hE f hff
          show JSVal.undef = specFieldMean (d1 :: d2 :: rest) f
          simp only [specFieldMean, hvs]
          rfl
      · intro f hf3
        have hnotin : f ∉ combineFields := by
          rcases hf3 with rfl | rfl | rfl <;> decide
        have hfm : jsGet (.obj
            [ ("documentType", JSVal.str t)
            , ("keyInformation", .obj ((d1 :: d2 :: rest).foldl jsAssign []))
            , ("riskFactors", .arr (dedupFirst rf))
            , ("financialMetrics", .obj (
                if (((d1 :: d2 :: rest).map extractFinancialMetrics).filterMap id).length > 0
                then combineFinancialMetrics
                  (((d1 :: d2 :: rest).map extractFinancialMetrics).filterMap id)
                else [])) ]) "financialMetrics"
          = .obj (if (((d1 :: d2 :: rest).map extractFinancialMetrics).filterMap id).length > 0
              then combineFinancialMetrics
                (((d1 :: d2 :: rest).map extractFinancialMetrics).filterMap id)
              else []) := rfl
        rw [hfm]
        by_cases hlen : (((d1 :: d2 :: rest).map extractFinancialMetrics).filterMap id).length > 0
        · rw [if_pos hlen]
          rw [show combineFinancialMetrics
              (((d1 :: d2 :: rest).map extractFinancialMetrics).filterMap id)
            = combineFields.filterMap (fun f2 =>
                (fieldMean (((d1 :: d2 :: rest).map extractFinancialMetrics).filterMap id) f2).map
                  fun q => (f2, JSVal.num (some q))) from rfl]
          rw [jsGet_keyed _ _ _ (by decide), if_neg hnotin]
        · rw [if_neg hlen]
          rfl

/-- C4 example facts: two images with monthlyIncome 1000 and 3000. -/
def c4Facts : List JSObj :=
  [ [("monthlyIncome", .num (some 1000)), ("riskFactors", .arr [.str "r"])]
  , [("monthlyIncome", .num (some 3000)), ("riskFactors", .arr [.str "r", .str "s"])] ]

/-- C4 witness: the two incomes 1000 and 3000 average to 2000. -/
theorem combine_metrics_means_witness :
    (combineExtractedData c4Facts "bank_statement").map
      (fun c => jsGet (jsGet (.obj c) "financialMetrics") "monthlyIncome")
      = .ok (.num (some 2000)) := by
  obtain ⟨c, hc, hmean, _⟩ := combine_metrics_means c4Facts "bank_statement"
    (by simp [c4Facts]) ⟨_, rfl⟩
  rw [hc]
  show Except.ok (jsGet (jsGet (.obj c) "financialMetrics") "monthlyIncome") = _
  rw [hmean "monthlyIncome" (by decide)]
  rw [show specFieldMean c4Facts "monthlyIncome" = .num (some 2000) from by
    have hl : (c4Facts.filterMap fun d => truthyNumericAt d "monthlyIncome")
        = [1000, 3000] := rfl
    simp only [specFieldMean, hl]
    rw [if_neg (by simp)]
    congr 2]

/-!
## Claim C8 — per-document failure isolation
-/

theorem foldl_push_eq_map (files : List DocFile) (acc : List ProcResult) :
    files.foldl (fun results f => results ++ [processOneDocument f]) acc
      = acc ++ files.map processOneDocument := by
  induction files generalizing acc with
  | nil => simp
  | cons f t ih =>
    rw [List.foldl_cons, ih, List.map_cons]
    simp

theorem processDocuments_eq_map (files : List DocFile) :
    processDocuments files = files.map processOneDocument := by
  show files.foldl (fun results f => results ++ [processOneDocument f]) []
    = files.map processOneDocument
  rw [foldl_push_eq_map]
  rfl

/-- The record pushed for a document whose processing threw `msg`. -/
def mkErrorResult (f : DocFile) (msg : String) : ProcResult :=
  { fileId := f.id, fileName := f.originalName, error := some msg
    extractedData := errorExtractedData, imageCount := 0, processingTime := 0 }

theorem processOneDocument_error (f : DocFile) (msg : String) (h : f.outcome = .error msg) :
    processOneDocument f = mkErrorResult f msg := by
  simp only [processOneDocument, h]
  rfl

/-- C8 (confirmed): a per-document failure never aborts the batch — the
output has exactly one result per input document, in input order, and a
document whose oracle threw contributes the `error`-typed placeholder
record (`documentType "error"`, riskFactors `["Document processing
failed"]`, confidence 0 — see `errorExtractedData`) instead. -/
theorem processDocuments_per_file (files : List DocFile) :
    (processDocuments files).length = files.length ∧
    (∀ i, (processDocuments files).get? i = (files.get? i).map processOneDocument) ∧
    (∀ f ∈ files, ∀ msg, f.outcome = .error msg →
      processOneDocument f = mkErrorResult f msg) := by
  refine ⟨?_, ?_, ?_⟩
  · rw [processDocuments_eq_map]
    simp
  · intro i
    rw [processDocuments_eq_map]
    simp
  · intro f _ msg h
    exact processOneDocument_error f msg h

/-- C8 example: a good file followed by one whose conversion throws. -/
def c8FileOk : DocFile :=
  ⟨"1", "bank statement.pdf", .ok [[("documentType", .str "bank_statement")]], 2⟩

/-- The failing file of the C8 example. -/
def c8FileBad : DocFile :=
  ⟨"2", "broken.pdf", .error "PDF conversion failed completely: bad XRef entry", 0⟩

/-- C8 witness: in the two-file batch the failing document still yields its
slot — the error placeholder — at index 1. -/
theorem processDocuments_per_file_witness :
    (processDocuments [c8FileOk, c8FileBad]).get? 1
      = some (mkErrorResult c8FileBad "PDF conversion failed completely: bad XRef entry") := by
  have h := processDocuments_per_file [c8FileOk, c8FileBad]
  rw [h.2.1 1]
  show some (processOneDocument c8FileBad) = _
  rw [h.2.2 c8FileBad (by simp) "PDF conversion failed completely: bad XRef entry" rfl]

/-!
## Claim C10 — the summary average is always exactly 80
-/

theorem combine_confidence_cases (facts : List JSObj) (t : String) (c : JSObj)
    (h : combineExtractedData facts t = .ok c) :
    jsGet (.obj c) "confidence" = .undef ∨ jsGet (.obj c) "confidence" = .num (some 0) := by
  cases facts with
  | nil =>
    cases h
    right
    rfl
  | cons d1 rest1 =>
    cases rest1 with
    | nil =>
      cases h
      left
      rfl
    | cons d2 rest =>
      have hbind : combineExtractedData (d1 :: d2 :: rest) t
          = (gatherRiskFactors (d1 :: d2 :: rest)).bind (fun rf => Except.ok
            [ ("documentType", JSVal.str t)
            , ("keyInformation", .obj ((d1 :: d2 :: rest).foldl jsAssign []))
            , ("riskFactors", .arr (dedupFirst rf))
            , ("financialMetrics", .obj (
                if (((d1 :: d2 :: rest).map extractFinancialMetrics).filterMap id).length > 0
                then combineFinancialMetrics
                  (((d1 :: d2 :: rest).map extractFinancialMetrics).filterMap id)
                else [])) ]) := rfl
      rw [hbind] at h
      cases hgr : gatherRiskFactors (d1 :: d2 :: rest) with
      | error e => rw [hgr] at h; cases h
      | ok rf =>
        rw [hgr] at h
        cases h
        left
        rfl

theorem processOne_confidence (f : DocFile) :
    jsGet (.obj (processOneDocument f).extractedData) "confidence" = .undef ∨
    jsGet (.obj (processOneDocument f).extractedData) "confidence" = .num (some 0) := by
  simp only [processOneDocument]
  cases hout : f.outcome with
  | error msg =>
    simp only [hout, Except.bind]
    right
    rfl
  | ok facts =>
    simp only [hout, Except.bind]
    cases hc : combineExtractedData facts (determineDocumentType f.originalName) with
    | error e =>
      simp only [Except.map, hc]
      right
      rfl
    | ok c =>
      simp only [Except.map, hc]
      exact combine_confidence_cases facts _ c hc

/-- C10 (confirmed): for every non-empty batch, whatever the extractor
reported, the document summary's averageConfidence is exactly 80: no
combiner output carries a truthy top-level confidence (absent on the
single- and multi-image paths, 0 on the empty and error paths), and the
summary's `|| 80` default replaces both absent and zero confidence before
averaging. -/
theorem summary_average_always_80 (files : List DocFile) (h : files ≠ []) :
    (buildDocumentSummary (processDocuments files)).averageConfidence = some 80 := by
  show averageConfidence (processDocuments files) = some 80
  have hlen : (processDocuments files).length = files.length := by
    rw [processDocuments_eq_map]
    simp
  have hnz : (processDocuments files).length ≠ 0 := by
    rw [hlen]
    exact fun hc => h (List.length_eq_zero.mp hc)
  have hsum : summaryConfSum (processDocuments files)
      = 80 * ((processDocuments files).length : ℚ) := by
    unfold summaryConfSum
    have hconst : ∀ r ∈ processDocuments files,
        numOf (jsOr (confEntry r) (.num (some 80))) = (fun _ => (80 : ℚ)) r := by
      intro r hr
      rw [processDocuments_eq_map] at hr
      obtain ⟨f, _, rfl⟩ := List.mem_map.mp hr
      rcases processOne_confidence f with hc | hc
      · simp [confEntry, hc, jsOr, jsTruthy, numOf]
      · simp [confEntry, hc, jsOr, jsTruthy, numOf]
    rw [List.map_congr_left hconst,
      show ((fun _ => (80 : ℚ)) : ProcResult → ℚ) = Function.const ProcResult 80 from rfl,
      List.map_const, List.sum_replicate, nsmul_eq_mul]
    ring
  unfold averageConfidence
  rw [if_neg hnz, hsum]
  have hq : (80 : ℚ) * ((processDocuments files).length : ℚ)
      / ((processDocuments files).length : ℚ) = 80 := by
    rw [mul_div_assoc, div_self (by exact_mod_cast hnz), mul_one]
  rw [hq]
  have  h80 : jsRound 80 = 80 := by decide
  rw [h80]

/-- C10 witness: a one-file batch whose extractor reported confidence 97
still averages to 80. -/
theorem summary_average_always_80_witness :
    (buildDocumentSummary (processDocuments
      [⟨"1", "statement.pdf", .ok [[("confidence", .num (some 97))]], 3⟩])).averageConfidence
    = some 80 :=
  summary_average_always_80 [⟨"1", "statement.pdf", .ok [[("confidence", .num (some 97))]], 3⟩]
    (by simp)

/-!
## Claim C7 — JSON recovery
-/

theorem lazyMatchesGo_no_brace {l : List Char} (h : '{' ∉ l) :
    lazyMatchesGo l none = [] := by
  induction l with
  | nil => rfl
  | cons c rest ih =>
    have hc : c ≠ '{' := fun hcon => h (by rw [hcon]; simp)
    show lazyMatchesGo (c :: rest) none = []
    rw [show lazyMatchesGo (c :: rest) none
      = if c = '{' then lazyMatchesGo rest (some ['{']) else lazyMatchesGo rest none from rfl]
    rw [if_neg hc]
    exact ih (fun hm => h (by simp [hm]))

theorem tryFenceBody_no_brace {b : List Char} (h : '{' ∉ b) : tryFenceBody b = none := by
  unfold tryFenceBody
  cases hd : b.dropWhile isWsChar with
  | nil => rfl
  | cons c r =>
    have hc : c ≠ '{' := by
      intro hcon
      subst hcon
      exact h ((List.dropWhile_sublist _).subset (by rw [hd]; simp))
    split
    next r2 heq =>
      injection heq with h1 _
      exact absurd h1 hc
    next => rfl

theorem fenceScan_no_brace {l : List Char} (h : '{' ∉ l) : fenceScan l = none := by
  induction l with
  | nil => rfl
  | cons c rest ih =>
    have hafter : '{' ∉ (if startsWithJsonCI ((c :: rest).drop 3)
        then ((c :: rest).drop 3).drop 4 else (c :: rest).drop 3) := by
      have h3 : '{' ∉ (c :: rest).drop 3 :=
        fun hm => h ((List.drop_sublist _ _).subset hm)
      by_cases hj : startsWithJsonCI ((c :: rest).drop 3)
      · rw [if_pos hj]
        exact fun hm => h3 ((List.drop_sublist _ _).subset hm)
      · rw [if_neg hj]
        exact h3
    show (match (if fence3.isPrefixOf (c :: rest) then
        tryFenceBody (if startsWithJsonCI ((c :: rest).drop 3)
          then ((c :: rest).drop 3).drop 4 else (c :: rest).drop 3)
      else none) with
      | some g => some g
      | none => fenceScan rest) = none
    by_cases hf : fence3.isPrefixOf (c :: rest)
    · rw [if_pos hf, tryFenceBody_no_brace hafter]
      exact ih (fun hm => h (by simp [hm]))
    · rw [if_neg hf]
      exact ih (fun hm => h (by simp [hm]))

theorem splitLinesGo_chars {l cur line : List Char}
    (hline : line ∈ splitLinesGo l cur) : ∀ c ∈ line, c ∈ l ∨ c ∈ cur := by
  induction l generalizing cur with
  | nil =>
    intro c hc
    right
    have : line = cur.reverse := by
      simpa [splitLinesGo] using hline
    rw [this] at hc
    simpa using hc
  | cons a r ih =>
    intro c hc
    rw [show splitLinesGo (a :: r) cur
      = if a = '\n' then cur.reverse :: splitLinesGo r [] else splitLinesGo r (a :: cur)
      from rfl] at hline
    by_cases ha : a = '\n'
    · rw [if_pos ha] at hline
      rcases List.mem_cons.mp hline with hl | hl
      · right
        rw [hl] at hc
        simpa using hc
      · rcases ih hl c hc with h1 | h1
        · exact Or.inl (by simp [h1])
        · simp at h1
    · rw [if_neg ha] at hline
      rcases ih hline c hc with h1 | h1
      · exact Or.inl (by simp [h1])
      · rcases List.mem_cons.mp h1 with h2 | h2
        · exact Or.inl (by simp [h2])
        · exact Or.inr h2

theorem strategy3Go_no_lines {lines : List (List Char)}
    (h : ∀ line ∈ lines, lineStartsWithBrace line = false) :
    strategy3Go lines = none := by
  induction lines with
  | nil => rfl
  | cons line rest ih =>
    show (if lineStartsWithBrace line then _ else strategy3Go rest) = none
    rw [if_neg (by rw [h line (by simp)]; exact Bool.false_ne_true)]
    exact ih (fun l2 hl2 => h l2 (by simp [hl2]))

theorem lineStartsWithBrace_false {line : List Char} (h : '{' ∉ line) :
    lineStartsWithBrace line = false := by
  unfold lineStartsWithBrace
  cases ht : trimChars line with
  | nil => rfl
  | cons c r =>
    have hc : c ≠ '{' := by
      intro hcon
      subst hcon
      apply h
      have h1 : '{' ∈ trimChars line := by rw [ht]; simp
      have h2 : '{' ∈ ((line.dropWhile isWsChar).reverse.dropWhile isWsChar) := by
        simpa [trimChars, dropTrailing] using h1
      have h3 : '{' ∈ line.dropWhile isWsChar := by
        have h4 := (List.dropWhile_sublist _).subset h2
        simpa using h4
      exact (List.dropWhile_sublist _).subset h3
    split
    next r2 heq =>
      injection heq with h1 _
      exact absurd h1 hc
    next => rfl

theorem strategy1_no_brace {l : List Char} (h : '{' ∉ l) : strategy1 l = none := by
  unfold strategy1 lazyBraceMatches
  rw [lazyMatchesGo_no_brace h]
  rfl

theorem strategy2_no_brace {l : List Char} (h : '{' ∉ l) : strategy2 l = none := by
  unfold strategy2
  rw [fenceScan_no_brace h]

theorem strategy3_no_brace {l : List Char} (h : '{' ∉ l) : strategy3 l = none := by
  unfold strategy3
  rw [strategy3Go_no_lines]
  intro line hline
  apply lineStartsWithBrace_false
  intro hmem
  rcases splitLinesGo_chars hline '{' hmem with h1 | h1
  · exact h h1
  · simp at h1

/-- C7 counterexample: the brace-free input `"5"` is returned as the JSON
number 5 by the repair strategy (whose result, unlike strategy 1's, is not
checked to be an object) — not the claimed `null`. -/
theorem extractJSON_no_brace_nonobject :
    extractJSON "5" = some (.num (some 5)) ∧ '{' ∉ "5".data :=
  ⟨rfl, by decide⟩

/-- C7 (amended): `extractJSON` never throws and tries its four strategies
in order, but on brace-free input the first three strategies cannot fire
and the result is exactly the repair strategy's `JSON.parse` of the cleaned
text — `null` for unparseable prose, yet a bare JSON value (number,
boolean, array…) is returned as-is even though it is not an object; the
fenced input recovers `{a: 1}`. -/
theorem extractJSON_spec :
    (∀ s : String, '{' ∉ s.data → extractJSON s = repairParse s.data) ∧
    extractJSON "Sure! ```json\n\x7b\"a\":1\x7d\n```" = some (.obj [("a", .num (some 1))]) ∧
    extractJSON "I am unable to provide that." = none ∧
    extractJSON "5" = some (.num (some 5)) := by
  refine ⟨?_, rfl, rfl, rfl⟩
  intro s hs
  by_cases hemp : s = ""
  · subst hemp
    rfl
  · simp only [extractJSON, if_neg hemp]
    rw [strategy1_no_brace hs, strategy2_no_brace hs, strategy3_no_brace hs]

/-- C7 witness: the no-brace clause applied at plain prose. -/
theorem extractJSON_spec_witness :
    extractJSON "hello there" = repairParse "hello there".data :=
  extractJSON_spec.1 "hello there" (by decide)
